import Mathlib

/-!
Verification development for the asset-tracker pipeline
(`wow_asset_tracker.py`).

The Python source is shallowly embedded:

* Python `str` values are embedded as `List Char` (`Str`); the helpers
  `pyTrim`, `splitCh`, `pyReplaceNl`, `strLe`, `pyInt` implement the exact
  semantics of `str.strip`, `str.split`, `str.replace("\\n", "\n")`,
  string `<=` (code-point lexicographic) and `int(...)` used by the source.
* Python `float` money amounts are embedded as exact rationals `ℚ`;
  `round(x, 4)` is embedded as `round4` (round half to even on the value
  scaled by `10^4`), and `int(x)` on nonneg/neg floats as truncation
  toward zero (`Int.tdiv`).  Every amount flowing through the pipeline is
  an integer number of copper divided by `10^4`, which `ℚ` represents
  exactly.
* Python dicts are embedded as insertion-ordered association lists;
  `dictSet` is `d[k] = v` (update in place, else append), `groupAppend`
  is `d.setdefault(k, []).append(v)`; `sorted(d.items())` is an insertion
  sort by key (keys are distinct in every dict the source sorts, so
  sorting pairs by key agrees with Python's tuple sort).
* The raw TradeSkillMaster key grammar (regexes over key strings) is
  embedded as the structured type `RawKey`: the regexes used by the
  source each recognise a fixed literal shape with one capture group, and
  `RawKey` records exactly the distinction those matches make.
* Timestamps use the proleptic Gregorian civil-from-days algorithm,
  matching `datetime.fromtimestamp(ts, tz=timezone.utc)`.
-/

/-- Characters of a Python string. -/
abbrev Str := List Char

/-- Whitespace as recognised by `str.strip()` (the ASCII subset that can
occur in TradeSkillMaster logs). -/
def isSpc (c : Char) : Bool :=
  c = ' ' || c = '\t' || c = '\n' || c = '\r' || c = '\x0b' || c = '\x0c'

/-- Remove leading whitespace (`str.lstrip()`). -/
def trimL (s : Str) : Str := s.dropWhile isSpc

/-- Remove trailing whitespace (`str.rstrip()`), by structural recursion. -/
def trimR : Str → Str
  | [] => []
  | c :: cs =>
    let r := trimR cs
    if r.isEmpty && isSpc c then [] else c :: r

/-- Python `str.strip()`. -/
def pyTrim (s : Str) : Str := trimR (trimL s)

/-- Python `str.split(sep)` for a one-character separator `sep`.
Always returns at least one (possibly empty) piece. -/
def splitCh (sep : Char) : Str → List Str
  | [] => [[]]
  | c :: cs =>
    let r := splitCh sep cs
    if c = sep then [] :: r else (c :: r.headD []) :: r.tail

/-- Python `s.replace("\\n", "\n")`: rewrite each literal backslash-n
escape to a newline, scanning left to right. -/
def pyReplaceNl : Str → Str
  | [] => []
  | [c] => [c]
  | c :: d :: rest =>
    if c = '\\' && d = 'n' then '\n' :: pyReplaceNl rest
    else c :: pyReplaceNl (d :: rest)

/-- Python string `<=`: lexicographic comparison by code point. -/
def strLe : Str → Str → Bool
  | [], _ => true
  | _ :: _, [] => false
  | a :: as, b :: bs =>
    if a.toNat < b.toNat then true
    else if b.toNat < a.toNat then false
    else strLe as bs

/-- Decimal digit test (`0` – `9`). -/
def isDigitCh (c : Char) : Bool := 48 ≤ c.toNat && c.toNat ≤ 57

/-- Value of a digit string, most significant first. -/
def digitsVal (ds : Str) : Nat :=
  ds.foldl (fun a c => a * 10 + (c.toNat - 48)) 0

/-- Parse an unsigned decimal numeral; `none` unless the string is one or
more digits. -/
def natOfDigits (ds : Str) : Option Nat :=
  if ds.isEmpty then none
  else if ds.all isDigitCh then some (digitsVal ds) else none

/-- Python `int(s)`: optional surrounding whitespace, optional sign,
decimal digits; any other shape raises `ValueError`, embedded as `none`.
(Underscore digit grouping never occurs in the logs and is not modelled.) -/
def pyInt (s : Str) : Option Int :=
  match pyTrim s with
  | '+' :: ds => (natOfDigits ds).map Int.ofNat
  | '-' :: ds => (natOfDigits ds).map (fun n => -(n : Int))
  | ds => (natOfDigits ds).map Int.ofNat

/-- Character for one decimal digit. -/
def digCh (n : Nat) : Char := Char.ofNat (48 + n)

/-- Decimal digits of `n`, via explicit fuel so the definition is
structurally recursive and kernel-evaluable. -/
def natDigitsAux : Nat → Nat → Str
  | 0, _ => []
  | fuel + 1, n =>
    if n < 10 then [digCh n]
    else natDigitsAux fuel (n / 10) ++ [digCh (n % 10)]

/-- Decimal representation of a natural number. -/
def natDigits (n : Nat) : Str := natDigitsAux (n + 1) n

/-- Zero-pad a numeral on the left to width `w` (`strftime` style). -/
def padZ (w : Nat) (s : Str) : Str :=
  List.replicate (w - s.length) '0' ++ s

/-- Decimal representation of an integer (minus sign for negatives). -/
def intDigits (i : Int) : Str :=
  if i < 0 then '-' :: natDigits i.natAbs else natDigits i.natAbs

/-- Proleptic Gregorian date of a count of days since 1970-01-01
(Howard Hinnant's `civil_from_days`, as computed by `datetime`).
Returns `(year, month, day)`. -/
def civilFromDays (z0 : Int) : Int × Nat × Nat :=
  let z := z0 + 719468
  let era := z.fdiv 146097
  let doe := (z - era * 146097).toNat
  let yoe := (doe - doe / 1460 + doe / 36524 - doe / 146096) / 365
  let doy := doe - (365 * yoe + yoe / 4 - yoe / 100)
  let mp := (5 * doy + 2) / 153
  let d := doy - (153 * mp + 2) / 5 + 1
  let m := if mp < 10 then mp + 3 else mp - 9
  let y := (yoe : Int) + era * 400 + (if m ≤ 2 then 1 else 0)
  (y, m, d)

/-- UTC calendar date string `"YYYY-MM-DD"` of a Unix timestamp, as
produced by `datetime.fromtimestamp(ts, tz=timezone.utc).strftime("%Y-%m-%d")`. -/
def dateStrOfTs (ts : Int) : Str :=
  let (y, m, d) := civilFromDays (ts.fdiv 86400)
  padZ 4 (intDigits y) ++ '-' :: padZ 2 (natDigits m) ++ '-' :: padZ 2 (natDigits d)

/-- UTC compact date string `"YYYYMMDD"` (`strftime("%Y%m%d")`). -/
def dateCompactOfTs (ts : Int) : Str :=
  let (y, m, d) := civilFromDays (ts.fdiv 86400)
  padZ 4 (intDigits y) ++ padZ 2 (natDigits m) ++ padZ 2 (natDigits d)

/-- UTC ISO-8601 instant string of a Unix timestamp, as produced by
`datetime.fromtimestamp(ts, tz=timezone.utc).isoformat()` for whole-second
instants: `"YYYY-MM-DDTHH:MM:SS+00:00"`. -/
def isoOfTs (ts : Int) : Str :=
  let sod := (ts.fmod 86400).toNat
  dateStrOfTs ts ++ 'T' :: padZ 2 (natDigits (sod / 3600)) ++
    ':' :: padZ 2 (natDigits (sod % 3600 / 60)) ++
    ':' :: padZ 2 (natDigits (sod % 60)) ++ ('+' :: '0' :: '0' :: ':' :: '0' :: '0' :: [])

/-- Round half to even to an integer (Python `round` on a number exactly
representable at this scale). -/
def rndHalfEven (q : ℚ) : Int :=
  let f := ⌊q⌋
  let r := q - (f : ℚ)
  if r < 1/2 then f else if 1/2 < r then f + 1 else if f % 2 = 0 then f else f + 1

/-- Python `round(x, 4)`: round half to even at four decimal places. -/
def round4 (q : ℚ) : ℚ := (rndHalfEven (q * 10000) : ℚ) / 10000

/-- Source `copper_to_gold`: `copper / 10000` (true division). -/
def copper_to_gold (copper : Int) : ℚ := (copper : ℚ) / 10000

/-- Python `int(x)` applied to the float `copper / 10000`: truncation
toward zero of the exact quotient. -/
def truncGold (copper : Int) : Int := copper.tdiv 10000

/-- Source `parse_gold_log`: decode a `goldLog` string
(`"minute,copper\n..."`) to a list of `(dateString, copperAmount)` pairs.
Malformed rows are skipped; a missing or foreign header yields `[]`. -/
def parse_gold_log (log_str : Str) : List (Str × Int) :=
  let log_str := pyReplaceNl log_str
  let lines := splitCh '\n' (pyTrim log_str)
  if pyTrim (lines.headD []) ≠ "minute,copper".data then []
  else
    (lines.drop 1).filterMap fun line =>
      match splitCh ',' line with
      | [p0, p1] =>
        match pyInt p0, pyInt p1 with
        | some minute, some copper => some (dateStrOfTs (minute * 60), copper)
        | _, _ => none
      | _ => none

/-- One decoded transaction-log row.  The source stores the derived float
`amount_gold = round(copper_to_gold(amount), 4)` in the record; here it is
recomputed at every read site by `amountGold`, which is extensionally the
same value. -/
structure TxRec where
  date : Str
  date_compact : Str
  dt : Str
  rtype : Str
  other_player : Str
  player : Str
  amount_copper : Int
deriving DecidableEq, Repr

/-- The stored `amount_gold` field of a decoded record. -/
def amountGold (r : TxRec) : ℚ := round4 (copper_to_gold r.amount_copper)

/-- Source `parse_csv_records`: decode a `csvIncome` / `csvExpense` string
(`"type,amount,otherPlayer,player,time\n..."`).  Malformed rows are
skipped; a missing or foreign header yields `[]`. -/
def parse_csv_records (csv_str : Str) : List TxRec :=
  let csv_str := pyReplaceNl csv_str
  let lines := splitCh '\n' (pyTrim csv_str)
  if pyTrim (lines.headD []) ≠ "type,amount,otherPlayer,player,time".data then []
  else
    (lines.drop 1).filterMap fun line =>
      match splitCh ',' line with
      | [rec_type, amount_str, other_player, player, time_str] =>
        match pyInt amount_str, pyInt time_str with
        | some amount, some ts =>
          some { date := dateStrOfTs ts
                 date_compact := dateCompactOfTs ts
                 dt := isoOfTs ts
                 rtype := rec_type
                 other_player := other_player
                 player := player
                 amount_copper := amount }
        | _, _ => none
      | _ => none

/-- The claim-side notion "first non-empty line" of a raw log string:
the first line whose whitespace-stripped content is non-empty, stripped. -/
def firstNonEmptyLine (s : Str) : Option Str :=
  (((splitCh '\n' s).map pyTrim).filter (fun l => !l.isEmpty)).head?

/-- A raw top-level key of the configuration dump, as classified by the
source's key regexes.  `goldLog name` is `s@<name>@internalData@goldLog`,
`warbankGoldLog` is `g@ @internalData@warbankGoldLog`, `csvIncome server` /
`csvExpense server` are `r@<server>@internalData@csvIncome` / `...csvExpense`,
and `otherKey` is any key matching none of those patterns. -/
inductive RawKey where
  | goldLog (name : Str)
  | warbankGoldLog
  | csvIncome (server : Str)
  | csvExpense (server : Str)
  | otherKey
deriving DecidableEq, Repr

/-- A raw top-level value: integer or string (`isinstance` checks in the
source distinguish exactly these). -/
inductive RawVal where
  | int (i : Int)
  | str (s : Str)
deriving DecidableEq, Repr

/-- The parsed dump: top-level key/value pairs in file order (Python dict
iteration order).  Keys of a Python dict are distinct, but no theorem
below needs that assumption. -/
abbrev RawDump := List (RawKey × RawVal)

/-- Python dict assignment `m[k] = v` on an insertion-ordered association
list: overwrite in place if the key is present, else append. -/
def dictSet {α β : Type} [DecidableEq α] (m : List (α × β)) (k : α) (v : β) :
    List (α × β) :=
  if m.any (fun p => p.1 = k) then
    m.map (fun p => if p.1 = k then (k, v) else p)
  else m ++ [(k, v)]

/-- Update the value stored at key `k` (no-op when `k` is absent). -/
def mapAt {α β : Type} [DecidableEq α] (m : List (α × β)) (k : α) (f : β → β) :
    List (α × β) :=
  m.map (fun p => if p.1 = k then (p.1, f p.2) else p)

/-- Python `d.setdefault(k, []).append(v)` grouping step. -/
def groupAppend {α β : Type} [DecidableEq α] (m : List (α × List β)) (k : α)
    (v : β) : List (α × List β) :=
  if m.any (fun p => p.1 = k) then mapAt m k (fun g => g ++ [v])
  else m ++ [(k, [v])]

/-- Look up a key in an association list (Python `d.get(k)` /
`k in d` + `d[k]`). -/
def alookup {α β : Type} [DecidableEq α] (m : List (α × β)) (k : α) :
    Option β :=
  (m.find? (fun p => p.1 = k)).map (fun p => p.2)

/-- A balance source (`source_key` in the source): a character (the
captured `<name>` of `s@<name>@internalData@goldLog`, where the source
uses the string `"char:" + name`) or the warbank. -/
inductive GoldSrc where
  | char (name : Str)
  | warbank
deriving DecidableEq, Repr

/-- The source classification of a raw key for the gold-history scan:
`goldLog` keys are character sources, the `warbankGoldLog` key is the
warbank source, everything else is skipped. -/
def goldSource : RawKey → Option GoldSrc
  | .goldLog name => some (.char name)
  | .warbankGoldLog => some .warbank
  | _ => none

/-- First phase of `extract_daily_gold_history`: per-source date → copper
maps (`source_timeline`), collapsed last-wins per `(source, date)`;
sources in first-contribution order, dates in insertion order. -/
def sourceTimeline (raw : RawDump) : List (GoldSrc × List (Str × Int)) :=
  raw.foldl
    (fun acc kv =>
      match kv.2 with
      | .int _ => acc
      | .str v =>
        match goldSource kv.1 with
        | none => acc
        | some src =>
          let entries := parse_gold_log v
          if entries.isEmpty then acc
          else
            let acc := if acc.any (fun p => p.1 = src) then acc
                       else acc ++ [(src, [])]
            mapAt acc src (fun m => entries.foldl (fun m e => dictSet m e.1 e.2) m))
    []

/-- Sort order used for `sorted(date_map.items())`: by date string.  The
dates of one `date_map` are distinct dict keys, so comparing the first
components agrees with Python's tuple comparison. -/
def sampLe (a b : Str × Int) : Bool := strLe a.1 b.1

/-- Second phase: each source's date map sorted ascending by date
(`source_sorted`). -/
def sourceSorted (raw : RawDump) : List (GoldSrc × List (Str × Int)) :=
  (sourceTimeline raw).map
    (fun p => (p.1, List.insertionSort (fun a b => sampLe a b = true) p.2))

/-- Third phase: the distinct observed dates across all sources, sorted
ascending (`all_dates = sorted({d for timeline ... for d, _ in timeline})`). -/
def allDates (raw : RawDump) : List Str :=
  List.insertionSort (fun a b => strLe a b = true)
    (((sourceSorted raw).flatMap (fun p => p.2.map (fun e => e.1))).dedup)

/-- The source's inner `while` cursor loop for one source on one day:
consume every leading sample dated `≤ d`, the last one consumed becoming
the current (forward-filled) value.  The unconsumed suffix plays the role
of the index pointer. -/
def advance (d : Str) : List (Str × Int) → Int → List (Str × Int) × Int
  | [], cur => ([], cur)
  | e :: tl, cur => if strLe e.1 d then advance d tl e.2 else (e :: tl, cur)

/-- Per-day state: for each source its unconsumed samples and its current
value (`pointers` and `current_vals`). -/
abbrev GoldStates := List (GoldSrc × (List (Str × Int) × Int))

/-- Advance every source's cursor past day `d`. -/
def stepDay (states : GoldStates) (d : Str) : GoldStates :=
  states.map (fun p => (p.1, advance d p.2.1 p.2.2))

/-- Copper sum of all character sources' current values
(`sum(v for k, v in current_vals.items() if k.startswith("char:"))`). -/
def charCopper (states : GoldStates) : Int :=
  ((states.filter (fun p => match p.1 with | .char _ => true | _ => false)).map
    (fun p => p.2.2)).sum

/-- The warbank's current value (`current_vals.get("warbank", 0)`). -/
def wbCopper (states : GoldStates) : Int :=
  ((alookup states .warbank).map (fun p => p.2)).getD 0

/-- Source `_char_key`: split on `" - "`; a `"Name - Faction - Realm"`
triple becomes `"Name-Realm"`, anything else passes through unchanged. -/
def splitDashSep : Str → List Str
  | ' ' :: '-' :: ' ' :: rest => [] :: splitDashSep rest
  | c :: rest =>
    let r := splitDashSep rest
    (c :: r.headD []) :: r.tail
  | [] => [[]]

/-- Display form of a character source name (`_char_key`). -/
def charKeyOf (tsm_key : Str) : Str :=
  match splitDashSep tsm_key with
  | [p0, _, p2] => p0 ++ '-' :: p2
  | _ => tsm_key

/-- One day's output record of `extract_daily_gold_history`. -/
structure DayEntry where
  characters_gold : Int
  warbank_gold : Int
  total_gold : Int
  characters : List (Str × Int)
deriving DecidableEq, Repr

/-- Build the day's record from the advanced per-source states (the body
of the source's date loop after the cursor advance). -/
def mkDayEntry (states : GoldStates) : DayEntry :=
  let cc := charCopper states
  let wb := wbCopper states
  { characters_gold := truncGold cc
    warbank_gold := truncGold wb
    total_gold := truncGold (cc + wb)
    characters :=
      (states.filter (fun p => match p.1 with | .char _ => true | _ => false)).foldl
        (fun m p => dictSet m (charKeyOf (match p.1 with | .char n => n | _ => []))
                      (truncGold p.2.2)) [] }

/-- The date loop of `extract_daily_gold_history` as a trace: for each day
(in ascending order) the per-source states after that day's cursor
advance. -/
def goldTraceAux (states : GoldStates) : List Str → List (Str × GoldStates)
  | [] => []
  | d :: ds =>
    let states' := stepDay states d
    (d, states') :: goldTraceAux states' ds

/-- The state trace of `extract_daily_gold_history` over the merged list
of observed dates, started from `pointers = 0`, `current_vals = 0`. -/
def goldTrace (raw : RawDump) : List (Str × GoldStates) :=
  goldTraceAux ((sourceSorted raw).map (fun p => (p.1, (p.2, 0)))) (allDates raw)

/-- Source `extract_daily_gold_history`: the merged daily gold history,
an association list from date string to that day's `DayEntry`, in
ascending date order. -/
def extract_daily_gold_history (raw : RawDump) : List (Str × DayEntry) :=
  (goldTrace raw).map (fun p => (p.1, mkDayEntry p.2))

/-- Identity tuple used by `extract_transactions` for deduplication:
`(date, type, otherPlayer, player, datetime)`. -/
def txUid (r : TxRec) : Str × Str × Str × Str × Str :=
  (r.date, r.rtype, r.other_player, r.player, r.dt)

/-- The tagged record stream scanned by `extract_transactions`: for each
`csvIncome` / `csvExpense` key (in dump order) its decoded records, tagged
with `true` for the income channel and `false` for the expense channel. -/
def txStream (raw : RawDump) : List (Bool × TxRec) :=
  raw.foldl
    (fun acc kv =>
      match kv.1, kv.2 with
      | .csvIncome _, .str v => acc ++ (parse_csv_records v).map (fun r => (true, r))
      | .csvExpense _, .str v => acc ++ (parse_csv_records v).map (fun r => (false, r))
      | _, _ => acc)
    []

/-- Per-category slot of a daily transaction aggregate. -/
structure TypeAgg where
  income_gold : ℚ
  expense_gold : ℚ
  count : Nat
deriving DecidableEq, Repr

/-- Accumulating daily aggregate (before `net_gold` is attached). -/
structure DayAgg where
  income_gold : ℚ
  expense_gold : ℚ
  by_type : List (Str × TypeAgg)
deriving DecidableEq, Repr

/-- Final daily aggregate including `net_gold`. -/
structure DayAggOut where
  income_gold : ℚ
  expense_gold : ℚ
  net_gold : ℚ
  by_type : List (Str × TypeAgg)
deriving DecidableEq, Repr

/-- Fresh daily slot `{"income_gold": 0.0, "expense_gold": 0.0, "by_type": {}}`. -/
def emptyDayAgg : DayAgg := { income_gold := 0, expense_gold := 0, by_type := [] }

/-- Fresh per-type slot `{"income_gold": 0.0, "expense_gold": 0.0, "count": 0}`. -/
def emptyTypeAgg : TypeAgg := { income_gold := 0, expense_gold := 0, count := 0 }

/-- The per-day part of `extract_transactions`' record-loop body: ensure
the type slot exists, add `abs(amount_gold)` to the bucket selected by the
source channel (rounding the running sum to 4 places), and increment the
type's count. -/
def dayUpdate (ch : Bool) (r : TxRec) (da : DayAgg) : DayAgg :=
  let t := r.rtype
  let gold := |amountGold r|
  let da := if da.by_type.any (fun p => p.1 = t) then da
            else { da with by_type := da.by_type ++ [(t, emptyTypeAgg)] }
  let da :=
    if ch then
      { da with
        income_gold := round4 (da.income_gold + gold)
        by_type := mapAt da.by_type t
          (fun ta => { ta with income_gold := round4 (ta.income_gold + gold) }) }
    else
      { da with
        expense_gold := round4 (da.expense_gold + gold)
        by_type := mapAt da.by_type t
          (fun ta => { ta with expense_gold := round4 (ta.expense_gold + gold) }) }
  { da with
    by_type := mapAt da.by_type t
      (fun ta => { ta with count := ta.count + 1 }) }

/-- The body of `extract_transactions`' record loop after the dedup check:
ensure the day slot exists and update it with `dayUpdate`. -/
def applyTxRec (daily : List (Str × DayAgg)) (ch : Bool) (r : TxRec) :
    List (Str × DayAgg) :=
  let d := r.date
  let daily := if daily.any (fun p => p.1 = d) then daily
               else daily ++ [(d, emptyDayAgg)]
  mapAt daily d (dayUpdate ch r)

/-- The record loop of `extract_transactions`: a fold threading the `seen`
dedup set (a list of identity tuples) and the daily aggregate dict. -/
def processTxSt : List (Bool × TxRec) → List (Str × Str × Str × Str × Str) →
    List (Str × DayAgg) →
    List (Str × Str × Str × Str × Str) × List (Str × DayAgg)
  | [], seen, daily => (seen, daily)
  | (ch, r) :: rest, seen, daily =>
    if txUid r ∈ seen then processTxSt rest seen daily
    else processTxSt rest (txUid r :: seen) (applyTxRec daily ch r)

/-- The daily aggregate dict after the record loop. -/
def processTx (stream : List (Bool × TxRec))
    (seen : List (Str × Str × Str × Str × Str)) (daily : List (Str × DayAgg)) :
    List (Str × DayAgg) :=
  (processTxSt stream seen daily).2

/-- Source `extract_transactions`: daily income/expense/net aggregates by
type, deduplicated globally, sorted ascending by date. -/
def extract_transactions (raw : RawDump) : List (Str × DayAggOut) :=
  let daily := processTx (txStream raw) [] []
  List.insertionSort (fun a b => strLe a.1 b.1 = true)
    (daily.map (fun p =>
      (p.1,
       { income_gold := p.2.income_gold
         expense_gold := p.2.expense_gold
         net_gold := round4 (p.2.income_gold - p.2.expense_gold)
         by_type := p.2.by_type })))

/-- The deduplicated record stream: the subsequence of `txStream` whose
records survive the `seen` check, with the same channel tags.  The
aggregate is exactly the fold of `applyTxRec` over this stream. -/
def dedupFrom : List (Bool × TxRec) → List (Str × Str × Str × Str × Str) →
    List (Bool × TxRec)
  | [], _ => []
  | (ch, r) :: rest, seen =>
    if txUid r ∈ seen then dedupFrom rest seen
    else (ch, r) :: dedupFrom rest (txUid r :: seen)

/-- The globally deduplicated tagged records of a dump. -/
def dedupedRecords (raw : RawDump) : List (Bool × TxRec) :=
  dedupFrom (txStream raw) []

/-- Running sum with the source's per-step rounding
(`x = round(x + g, 4)` repeatedly), starting from `init`. -/
def roundAccum (init : ℚ) (gs : List ℚ) : ℚ :=
  gs.foldl (fun s g => round4 (s + g)) init

/-- A collected crafting-order record: the decoded transaction row plus
the `crafter_server` / `requester` / `crafter` fields the source attaches. -/
structure CraftRec extends TxRec where
  crafter_server : Str
  requester : Str
  crafter : Str
deriving DecidableEq, Repr

/-- Identity tuple used by `extract_crafting_orders` for deduplication:
`(other_player, player, datetime)`. -/
def craftUid (r : TxRec) : Str × Str × Str := (r.other_player, r.player, r.dt)

/-- The record loop of `extract_crafting_orders` for one `csvIncome`
source: keep `Crafting Order` rows not seen before, decorated with the
crafter server; returns the grown seen set and the new records in order. -/
def craftScan (server : Str) : List TxRec → List (Str × Str × Str) →
    List (Str × Str × Str) × List CraftRec
  | [], seen => (seen, [])
  | r :: rest, seen =>
    if r.rtype ≠ ("Crafting Order").data then craftScan server rest seen
    else if craftUid r ∈ seen then craftScan server rest seen
    else
      let out := craftScan server rest (craftUid r :: seen)
      (out.1,
       { toTxRec := r
         crafter_server := pyTrim server
         requester := r.other_player
         crafter := r.player } :: out.2)

/-- Source `extract_crafting_orders`: all deduplicated `Crafting Order`
records from `csvIncome` keys, sorted ascending by their `datetime`
string. -/
def extract_crafting_orders (raw : RawDump) : List CraftRec :=
  let st := raw.foldl
    (fun (st : List (Str × Str × Str) × List CraftRec) kv =>
      match kv.1, kv.2 with
      | .csvIncome server, .str v =>
        let out := craftScan server (parse_csv_records v) st.1
        (out.1, st.2 ++ out.2)
      | _, _ => st)
    ([], [])
  List.insertionSort (fun a b => strLe a.dt b.dt = true) st.2

/-- Placeholder record for `recs[0]` lookups (the grouped lists are never
empty, so it is never observed). -/
def dummyCraftRec : CraftRec :=
  { date := [], date_compact := [], dt := [], rtype := [], other_player := []
    player := [], amount_copper := 0, crafter_server := ("_unknown").data
    requester := [], crafter := [] }

/-- One `orders` element of a by-date crafting payload. -/
structure CraftOrderOut where
  dt : Str
  requester : Str
  crafter : Str
  crafter_server : Str
  amount_gold : ℚ
deriving DecidableEq, Repr

/-- One by-date crafting payload (`crafting/YYYY/MM/DD.json`). -/
structure CraftDatePayload where
  date : Str
  total_orders : Nat
  total_gold : ℚ
  orders : List CraftOrderOut
deriving DecidableEq, Repr

/-- Source `save_crafting_by_date`, minus the file writing: group records
by `date_compact` (insertion order), sort groups by that key, and build
each day's payload. -/
def save_crafting_by_date (records : List CraftRec) :
    List (Str × CraftDatePayload) :=
  let by_date := records.foldl (fun m r => groupAppend m r.date_compact r) []
  (List.insertionSort (fun a b => strLe a.1 b.1 = true) by_date).map
    (fun p =>
      let recs := p.2
      (p.1,
       { date := (recs.headD dummyCraftRec).date
         total_orders := recs.length
         total_gold := round4 ((recs.map (fun r => amountGold r.toTxRec)).sum)
         orders := recs.map (fun r =>
           { dt := r.dt
             requester := r.requester
             crafter := r.crafter
             crafter_server := r.crafter_server
             amount_gold := amountGold r.toTxRec }) }))

/-- Source `_parse_requester`: split `"Char-Server"` at the last dash into
`(server, char)` (both stripped); a dashless identity yields the marker
server `"_unknown"`. -/
def _parse_requester (requester : Str) : Str × Str :=
  if requester.any (fun c => c = '-') then
    let rev := requester.reverse
    let after := rev.takeWhile (fun c => c ≠ '-')
    let server := after.reverse
    let char := (rev.drop (after.length + 1)).reverse
    (pyTrim server, pyTrim char)
  else (("_unknown").data, pyTrim requester)

/-- One `orders` element of a by-requester crafting payload. -/
structure ReqOrderOut where
  date : Str
  dt : Str
  crafter : Str
  crafter_server : Str
  amount_gold : ℚ
deriving DecidableEq, Repr

/-- One by-requester crafting payload (`crafting/<server>/<char>.json`). -/
structure ReqPayload where
  requester : Str
  server : Str
  character : Str
  total_orders : Nat
  total_gold : ℚ
  orders : List ReqOrderOut
deriving DecidableEq, Repr

/-- Source `save_crafting_by_requester`, minus the file writing: group
records by requester (insertion order), sort groups by requester, resolve
each requester's server (falling back to the first record's crafter
server when the identity has no dash), and build the payloads. -/
def save_crafting_by_requester (records : List CraftRec) : List ReqPayload :=
  let by_requester := records.foldl (fun m r => groupAppend m r.requester r) []
  (List.insertionSort (fun a b => strLe a.1 b.1 = true) by_requester).map
    (fun p =>
      let recs := p.2
      let sc := _parse_requester p.1
      let server := if sc.1 = ("_unknown").data
                    then (recs.headD dummyCraftRec).crafter_server else sc.1
      { requester := p.1
        server := server
        character := sc.2
        total_orders := recs.length
        total_gold := round4 ((recs.map (fun r => amountGold r.toTxRec)).sum)
        orders := recs.map (fun r =>
          { date := r.date
            dt := r.dt
            crafter := r.crafter
            crafter_server := r.crafter_server
            amount_gold := amountGold r.toTxRec }) })

/-- The most recent sample of a (collapsed, sorted) per-entity sample list
dated at or before `d` — the forward-fill reference value of the spec. -/
def lastLE (tl : List (Str × Int)) (d : Str) : Option Int :=
  ((tl.filter (fun e => strLe e.1 d)).map (fun e => e.2)).getLast?

/-- The day slot stored for date `d` (a fresh empty slot when the date was
never touched, mirroring the `if d not in daily` initialisation). -/
def getDay (daily : List (Str × DayAgg)) (d : Str) : DayAgg :=
  (alookup daily d).getD emptyDayAgg

/-- The per-type slot stored for category `t` of a day slot. -/
def getType (da : DayAgg) (t : Str) : TypeAgg :=
  (alookup da.by_type t).getD emptyTypeAgg

/-!
Concrete inputs used by witnesses and counterexamples.  The `goldLog` and
`csv` strings are written exactly as they sit in the Lua dump, with
literal backslash-n escapes; minute `28401120` corresponds to UTC
2024-01-01 00:00 and minute `28404000` to 2024-01-03 00:00.
-/

/-- Balance log of the worked example in the spec: samples on 2024-01-01
(1000000 copper) and 2024-01-03 (2500000 copper). -/
def exGoldLog : Str :=
  ("minute,copper\\n28401120,1000000\\n28404000,2500000").data

/-- The worked example dump: one character, no warbank data. -/
def exGoldRaw : RawDump :=
  [(.goldLog ("Alice - Horde - Realm").data, .str exGoldLog)]

/-- A balance log holding `1.5` gold (15000 copper) on 2024-01-01. -/
def halfGoldLog : Str := ("minute,copper\\n28401120,15000").data

/-- A dump whose character and warbank each hold `1.5` gold on the same
day, making the three truncations visibly disagree. -/
def c3raw : RawDump :=
  [(.goldLog ("Alice - Horde - Realm").data, .str halfGoldLog),
   (.warbankGoldLog, .str halfGoldLog)]

/-- Transaction-log string with a single Crafting Order row at UTC
2024-01-01 00:00:05 for 2.5 gold. -/
def exTxCsv : Str :=
  ("type,amount,otherPlayer,player,time\\nCrafting Order,25000,Alice,Bob,1704067205").data

/-- The decoded form of `exTxCsv`'s row. -/
def exTxRec : TxRec :=
  { date := ("2024-01-01").data
    date_compact := ("20240101").data
    dt := ("2024-01-01T00:00:05+00:00").data
    rtype := ("Crafting Order").data
    other_player := ("Alice").data
    player := ("Bob").data
    amount_copper := 25000 }

/-- Two income sources re-exporting the same row (overlapping ranges). -/
def c4raw : RawDump :=
  [(.csvIncome ("S1").data, .str exTxCsv), (.csvIncome ("S2").data, .str exTxCsv)]

/-- The same dump with the overlap removed: the row appears once. -/
def c4raw' : RawDump := [(.csvIncome ("S1").data, .str exTxCsv)]

/-- Expense-channel log with a single negative-amount Repair Bill row at
UTC 2024-01-01 00:00:06. -/
def exExpCsv : Str :=
  ("type,amount,otherPlayer,player,time\\nRepair Bill,-15000,Vendor,Bob,1704067206").data

/-- A dump with one income row and one (negative, expense-channel) row. -/
def c8raw : RawDump :=
  [(.csvIncome ("S1").data, .str exTxCsv), (.csvExpense ("S1").data, .str exExpCsv)]

/-- Income log of server S1: a Crafting Order requested by the dashless
identity `Alice`, crafted on S1 (UTC 2024-01-01 00:00:05). -/
def c6csvS1 : Str :=
  ("type,amount,otherPlayer,player,time\\nCrafting Order,10000,Alice,Bob,1704067205").data

/-- Income log of server S2: a later Crafting Order requested by the same
dashless identity `Alice`, crafted on S2 (UTC 2024-01-02 00:00:05). -/
def c6csvS2 : Str :=
  ("type,amount,otherPlayer,player,time\\nCrafting Order,20000,Alice,Carl,1704153605").data

/-- A dump in which requester `Alice` (no server suffix) has crafting
records on two different crafter servers. -/
def c6raw : RawDump :=
  [(.csvIncome ("S1").data, .str c6csvS1), (.csvIncome ("S2").data, .str c6csvS2)]

/-- A dump whose Crafting Order row for crafter `Bob` sits only in an
expense-channel source string, next to an income-channel source with an
unrelated Crafting Order (so the crafting views are non-empty). -/
def c9raw : RawDump :=
  [(.csvExpense ("S1").data, .str c6csvS1),
   (.csvIncome ("S2").data, .str c6csvS2)]

/-- A log string whose first non-empty line matches neither expected
header. -/
def badHeaderLog : Str := ("\\n  \\ngarbage\\nminute,copper\\n1,2").data

set_option maxRecDepth 1000000

/-! ### Order properties of the embedded string comparison -/

theorem strLe_refl : ∀ a : Str, strLe a a = true
  | [] => rfl
  | c :: cs => by simp [strLe, strLe_refl cs]

theorem strLe_total : ∀ a b : Str, strLe a b = true ∨ strLe b a = true
  | [], _ => Or.inl rfl
  | _ :: _, [] => Or.inr rfl
  | a :: as, b :: bs => by
    rcases Nat.lt_trichotomy a.toNat b.toNat with h | h | h
    · exact Or.inl (by simp [strLe, h])
    · rcases strLe_total as bs with ih | ih
      · exact Or.inl (by simp [strLe, h, ih])
      · exact Or.inr (by simp [strLe, h.symm, ih])
    · exact Or.inr (by simp [strLe, h])

theorem strLe_trans : ∀ a b c : Str,
    strLe a b = true → strLe b c = true → strLe a c = true
  | [], _, _, _, _ => rfl
  | _ :: _, [], _, h1, _ => by simp [strLe] at h1
  | _ :: _, _ :: _, [], _, h2 => by simp [strLe] at h2
  | a :: as, b :: bs, c :: cs, h1, h2 => by
    rcases Nat.lt_trichotomy a.toNat b.toNat with hab | hab | hab
    · rcases Nat.lt_trichotomy b.toNat c.toNat with hbc | hbc | hbc
      · simp [strLe, Nat.lt_trans hab hbc]
      · have hac : a.toNat < c.toNat := by omega
        simp [strLe, hac]
      · simp [strLe, Nat.lt_asymm hbc, hbc] at h2
    · rcases Nat.lt_trichotomy b.toNat c.toNat with hbc | hbc | hbc
      · have hac : a.toNat < c.toNat := by omega
        simp [strLe, hac]
      · have h1' : strLe as bs = true := by
          simpa [strLe, hab] using h1
        have h2' : strLe bs cs = true := by
          simpa [strLe, hbc] using h2
        have hac : a.toNat = c.toNat := hab.trans hbc
        simp [strLe, hac, strLe_trans as bs cs h1' h2']
      · simp [strLe, Nat.lt_asymm hbc, hbc] at h2
    · simp [strLe, Nat.lt_asymm hab, hab] at h1

/-! ### Association-list infrastructure -/

theorem alookup_cons {α β : Type} [DecidableEq α] (p : α × β)
    (rest : List (α × β)) (k : α) :
    alookup (p :: rest) k = if p.1 = k then some p.2 else alookup rest k := by
  by_cases h : p.1 = k <;> simp [alookup, h]

theorem alookup_eq_none {α β : Type} [DecidableEq α] (m : List (α × β)) (k : α)
    (h : m.any (fun p => p.1 = k) = false) : alookup m k = none := by
  induction m with
  | nil => rfl
  | cons p rest ih =>
    simp only [List.any_cons, Bool.or_eq_false_iff, decide_eq_false_iff_not] at h
    rw [alookup_cons, if_neg h.1]
    exact ih (by simpa using h.2)

theorem alookup_append_single {α β : Type} [DecidableEq α]
    (m : List (α × β)) (k k' : α) (v : β) :
    alookup (m ++ [(k, v)]) k' =
      ((alookup m k').orElse (fun _ => if k' = k then some v else none)) := by
  induction m with
  | nil =>
    by_cases h : k = k'
    · simp [alookup_cons, alookup, h, Option.orElse]
    · have h' : ¬(k' = k) := fun e => h e.symm
      simp [alookup_cons, alookup, h, h', Option.orElse]
  | cons p rest ih =>
    by_cases h : p.1 = k'
    · simp [List.cons_append, alookup_cons, h, Option.orElse]
    · simpa [List.cons_append, alookup_cons, h, Option.orElse] using ih

theorem mapAt_cons {α β : Type} [DecidableEq α] (p : α × β)
    (rest : List (α × β)) (k : α) (f : β → β) :
    mapAt (p :: rest) k f =
      (if p.1 = k then (p.1, f p.2) else p) :: mapAt rest k f := rfl

theorem alookup_mapAt_self {α β : Type} [DecidableEq α]
    (m : List (α × β)) (k : α) (f : β → β) :
    alookup (mapAt m k f) k = (alookup m k).map f := by
  induction m with
  | nil => rfl
  | cons p rest ih =>
    by_cases h : p.1 = k
    · simp [mapAt_cons, alookup_cons, h]
    · simpa [mapAt_cons, alookup_cons, h] using ih

theorem alookup_mapAt_ne {α β : Type} [DecidableEq α]
    (m : List (α × β)) (k k' : α) (f : β → β) (h : k' ≠ k) :
    alookup (mapAt m k f) k' = alookup m k' := by
  induction m with
  | nil => rfl
  | cons p rest ih =>
    by_cases hp : p.1 = k
    · have hne : ¬(p.1 = k') := fun e => h (e ▸ hp : k' = k)
      rw [mapAt_cons, if_pos hp, alookup_cons]
      simp only [hp]
      rw [if_neg (fun e => h e.symm), alookup_cons, if_neg hne]
      exact ih
    · by_cases hp' : p.1 = k'
      · rw [mapAt_cons, if_neg hp, alookup_cons, if_pos hp',
          alookup_cons, if_pos hp']
      · simpa [mapAt_cons, alookup_cons, hp, hp'] using ih

theorem mapAt_keys {α β : Type} [DecidableEq α] (m : List (α × β)) (k : α)
    (f : β → β) : (mapAt m k f).map (fun p => p.1) = m.map (fun p => p.1) := by
  induction m with
  | nil => rfl
  | cons p rest ih =>
    by_cases h : p.1 = k <;> simp [mapAt_cons, h, ih]

theorem alookup_of_mem_nodup {α β : Type} [DecidableEq α]
    {m : List (α × β)} {k : α} {v : β}
    (hn : (m.map (fun p => p.1)).Nodup) (hm : (k, v) ∈ m) :
    alookup m k = some v := by
  induction m with
  | nil => cases hm
  | cons p rest ih =>
    rw [List.map_cons, List.nodup_cons] at hn
    rcases List.mem_cons.mp hm with h | h
    · rw [← h, alookup_cons, if_pos rfl]
    · have hk : ¬(p.1 = k) := by
        intro e
        exact hn.1 (e ▸ List.mem_map.mpr ⟨(k, v), h, rfl⟩)
      rw [alookup_cons, if_neg hk]
      exact ih hn.2 h

/-! ### Line structure of stripped strings (header-mismatch safety) -/

theorem splitCh_headD (y : Str) :
    (splitCh '\n' y).headD [] = y.takeWhile (fun c => !decide (c = '\n')) := by
  induction y with
  | nil => rfl
  | cons c cs ih =>
    simp only [List.headD_eq_head?_getD] at ih
    by_cases h : c = '\n' <;> simp [splitCh, List.takeWhile_cons, h, ih]

theorem trimR_nil_of_spaces {u : Str} (h : ∀ c ∈ u, isSpc c = true) :
    trimR u = [] := by
  induction u with
  | nil => rfl
  | cons c cs ih =>
    have : trimR cs = [] := ih (fun d hd => h d (List.mem_cons_of_mem c hd))
    simp [trimR, this, h c (List.mem_cons_self c cs)]

theorem spaces_of_trimR_nil : ∀ {u : Str}, trimR u = [] → ∀ c ∈ u, isSpc c = true := by
  intro u
  induction u with
  | nil => intro _ c hc; cases hc
  | cons c cs ih =>
    intro h d hd
    by_cases hr : (trimR cs).isEmpty && isSpc c
    · rcases List.mem_cons.mp hd with rfl | hd'
      · exact (Bool.and_eq_true_iff.mp hr).2
      · exact ih (List.isEmpty_iff.mp (Bool.and_eq_true_iff.mp hr).1) d hd'
    · simp [trimR, hr] at h

theorem trimR_append_spaces {u : Str} (h : ∀ c ∈ u, isSpc c = true) :
    ∀ a : Str, trimR (a ++ u) = trimR a := by
  intro a
  induction a with
  | nil => simpa using trimR_nil_of_spaces h
  | cons c cs ih => simp [trimR, ih]

theorem trimL_nil_of_spaces {u : Str} (h : ∀ c ∈ u, isSpc c = true) :
    trimL u = [] :=
  List.dropWhile_eq_nil_iff.mpr h

theorem pyTrim_append_spaces {u : Str} (h : ∀ c ∈ u, isSpc c = true)
    (a : Str) : pyTrim (a ++ u) = pyTrim a := by
  unfold pyTrim trimL
  rw [List.dropWhile_append]
  by_cases ha : (List.dropWhile isSpc a).isEmpty
  · rw [if_pos ha]
    rw [List.dropWhile_eq_nil_iff.mpr h]
    rw [List.isEmpty_iff.mp ha]
  · rw [if_neg ha]
    exact trimR_append_spaces h _

theorem takeWhile_trimR_decomp : ∀ x : Str,
    ∃ u, (∀ c ∈ u, isSpc c = true) ∧
      x.takeWhile (fun c => !decide (c = '\n')) =
        (trimR x).takeWhile (fun c => !decide (c = '\n')) ++ u := by
  intro x
  induction x with
  | nil => exact ⟨[], by simp, rfl⟩
  | cons c cs ih =>
    by_cases hr : (trimR cs).isEmpty && isSpc c
    · refine ⟨(c :: cs).takeWhile (fun c => !decide (c = '\n')), ?_, ?_⟩
      · intro d hd
        have hd' : d ∈ c :: cs := (List.takeWhile_sublist _).subset hd
        have hall : ∀ e ∈ c :: cs, isSpc e = true := by
          intro e he
          rcases List.mem_cons.mp he with rfl | he'
          · exact (Bool.and_eq_true_iff.mp hr).2
          · exact spaces_of_trimR_nil
              (List.isEmpty_iff.mp (Bool.and_eq_true_iff.mp hr).1) e he'
        exact hall d hd'
      · simp [trimR, hr]
    · rcases ih with ⟨u, hu, hue⟩
      have h1 : trimR (c :: cs) = c :: trimR cs := by
        simp only [trimR]
        exact if_neg hr
      by_cases hc : c = '\n'
      · refine ⟨[], by simp, ?_⟩
        rw [h1]
        simp [List.takeWhile_cons, hc]
      · refine ⟨u, hu, ?_⟩
        rw [h1]
        simp [List.takeWhile_cons, hc, hue]

theorem pyTrim_cons_nonspace_ne_nil {c : Char} (hc : isSpc c = false)
    (z : Str) : pyTrim (c :: z) ≠ [] := by
  unfold pyTrim trimL
  rw [List.dropWhile_cons_of_neg (by simp [hc])]
  simp [trimR, hc]

theorem splitCh_ne_nil (sep : Char) : ∀ y : Str, splitCh sep y ≠ []
  | [] => by simp [splitCh]
  | c :: cs => by by_cases h : c = sep <;> simp [splitCh, h]

theorem pyTrim_cons_space {c : Char} (hc : isSpc c = true) (z : Str) :
    pyTrim (c :: z) = pyTrim z := by
  unfold pyTrim trimL
  rw [List.dropWhile_cons_of_pos hc]

theorem fNEL_cons_nl (cs : Str) :
    firstNonEmptyLine ('\n' :: cs) = firstNonEmptyLine cs := by
  unfold firstNonEmptyLine
  rw [show splitCh '\n' ('\n' :: cs) = [] :: splitCh '\n' cs by simp [splitCh]]
  rw [List.map_cons, List.filter_cons_of_neg (by decide)]

theorem fNEL_cons_space {c : Char} (hc : isSpc c = true) (hcn : ¬c = '\n')
    (cs : Str) : firstNonEmptyLine (c :: cs) = firstNonEmptyLine cs := by
  unfold firstNonEmptyLine
  rw [show splitCh '\n' (c :: cs) =
      (c :: (splitCh '\n' cs).headD []) :: (splitCh '\n' cs).tail by
    simp [splitCh, hcn]]
  rcases h : splitCh '\n' cs with _ | ⟨l, t⟩
  · exact absurd h (splitCh_ne_nil '\n' cs)
  · simp [h, pyTrim_cons_space hc]

theorem trimL_takeWhile_eq_fNEL : ∀ x : Str,
    pyTrim ((trimL x).takeWhile (fun c => !decide (c = '\n'))) =
      (firstNonEmptyLine x).getD [] := by
  intro x
  induction x with
  | nil => rfl
  | cons c cs ih =>
    by_cases hsp : isSpc c = true
    · have hL : trimL (c :: cs) = trimL cs := by
        unfold trimL
        exact List.dropWhile_cons_of_pos hsp
      by_cases hc : c = '\n'
      · subst hc
        rw [hL, ih, fNEL_cons_nl]
      · rw [hL, ih, fNEL_cons_space hsp hc]
    · have hsp' : isSpc c = false := by simpa using hsp
      have hcn : ¬c = '\n' := by
        intro e
        subst e
        simp [isSpc] at hsp'
      have hL : trimL (c :: cs) = c :: cs := by
        unfold trimL
        exact List.dropWhile_cons_of_neg (by simp [hsp'])
      rw [hL]
      rw [show List.takeWhile (fun c => !decide (c = '\n')) (c :: cs)
          = c :: List.takeWhile (fun c => !decide (c = '\n')) cs by
        simp [List.takeWhile_cons, hcn]]
      unfold firstNonEmptyLine
      rw [show splitCh '\n' (c :: cs) =
          (c :: (splitCh '\n' cs).headD []) :: (splitCh '\n' cs).tail by
        simp [splitCh, hcn]]
      rw [splitCh_headD cs]
      simp only [List.map_cons]
      rw [List.filter_cons_of_pos (by
        simpa using pyTrim_cons_nonspace_ne_nil hsp'
          (List.takeWhile (fun c => !decide (c = '\n')) cs))]
      rfl

theorem code_header_check_eq_fNEL (x : Str) :
    pyTrim ((splitCh '\n' (pyTrim x)).headD []) =
      (firstNonEmptyLine x).getD [] := by
  rw [splitCh_headD]
  show pyTrim ((trimR (trimL x)).takeWhile (fun c => !decide (c = '\n'))) = _
  rcases takeWhile_trimR_decomp (trimL x) with ⟨u, hu, hue⟩
  rw [← pyTrim_append_spaces hu, ← hue]
  exact trimL_takeWhile_eq_fNEL x

/-- C7: for every input string whose first non-empty line does not
exactly match the expected header, the balance-log decoder and the
transaction-log decoder each return the empty sequence (and, being total
functions, never raise). -/
theorem C7_header_mismatch_safety : ∀ s : Str,
    (firstNonEmptyLine (pyReplaceNl s) ≠ some (("minute,copper").data) →
      parse_gold_log s = []) ∧
    (firstNonEmptyLine (pyReplaceNl s) ≠
        some (("type,amount,otherPlayer,player,time").data) →
      parse_csv_records s = []) := by
  intro s
  constructor
  · intro h
    have hg : pyTrim ((splitCh '\n' (pyTrim (pyReplaceNl s))).headD []) ≠
        ("minute,copper").data := by
      rw [code_header_check_eq_fNEL (pyReplaceNl s)]
      rcases hf : firstNonEmptyLine (pyReplaceNl s) with _ | l
      · decide
      · intro e
        exact h (hf.trans (by rw [show l = ("minute,copper").data from e]))
    simp only [parse_gold_log]
    rw [if_pos hg]
  · intro h
    have hg : pyTrim ((splitCh '\n' (pyTrim (pyReplaceNl s))).headD []) ≠
        ("type,amount,otherPlayer,player,time").data := by
      rw [code_header_check_eq_fNEL (pyReplaceNl s)]
      rcases hf : firstNonEmptyLine (pyReplaceNl s) with _ | l
      · decide
      · intro e
        exact h (hf.trans (by
          rw [show l = ("type,amount,otherPlayer,player,time").data from e]))
    simp only [parse_csv_records]
    rw [if_pos hg]

/-- Witness for C7 at a concrete malformed log. -/
theorem C7_header_mismatch_safety_witness :
    (firstNonEmptyLine (pyReplaceNl badHeaderLog) ≠
        some (("minute,copper").data)) ∧
    (firstNonEmptyLine (pyReplaceNl badHeaderLog) ≠
        some (("type,amount,otherPlayer,player,time").data)) ∧
    parse_gold_log badHeaderLog = [] ∧ parse_csv_records badHeaderLog = [] :=
  ⟨by decide, by decide,
   (C7_header_mismatch_safety badHeaderLog).1 (by decide),
   (C7_header_mismatch_safety badHeaderLog).2 (by decide)⟩

/-- C1 (code evaluation at the failing input): on the spec's worked
example — one character with samples on 2024-01-01 (1000000 copper) and
2024-01-03 (2500000 copper), no warbank data — the merged timeline of the
code contains only the two observed dates; the calendar day 2024-01-02 is
absent, contradicting the claimed gap-free range of 3 days (the subtotals
on the emitted days are the claimed 100 and 250). -/
theorem C1_missing_calendar_day :
    extract_daily_gold_history exGoldRaw =
      [(("2024-01-01").data,
        { characters_gold := 100, warbank_gold := 0, total_gold := 100,
          characters := [(("Alice-Realm").data, 100)] }),
       (("2024-01-03").data,
        { characters_gold := 250, warbank_gold := 0, total_gold := 250,
          characters := [(("Alice-Realm").data, 250)] })] ∧
    ¬(("2024-01-02").data ∈
        (extract_daily_gold_history exGoldRaw).map (fun p => p.1)) := by
  constructor
  · decide
  · decide

/-! ### Forward-fill correctness of the cursor loop -/

theorem getLast?_cons_getD {α : Type} : ∀ (xs : List α) (a dflt : α),
    ((a :: xs).getLast?).getD dflt = xs.getLast?.getD a
  | [], _, _ => rfl
  | b :: xs, a, dflt => by
    rw [List.getLast?_cons_cons]
    exact (getLast?_cons_getD xs b dflt).trans (getLast?_cons_getD xs b a).symm

theorem advance_spec (d : Str) : ∀ (tl : List (Str × Int)) (cur : Int),
    advance d tl cur =
      (tl.dropWhile (fun e => strLe e.1 d),
       ((tl.takeWhile (fun e => strLe e.1 d)).map (fun e => e.2)).getLast?.getD cur)
  | [], cur => rfl
  | e :: tl, cur => by
    by_cases h : strLe e.1 d = true
    · have h1 : advance d (e :: tl) cur = advance d tl e.2 := by
        simp [advance, h]
      have h2 : List.dropWhile (fun x : Str × Int => strLe x.1 d) (e :: tl) =
          List.dropWhile (fun x : Str × Int => strLe x.1 d) tl := by
        simp [List.dropWhile_cons, h]
      have h3 : List.takeWhile (fun x : Str × Int => strLe x.1 d) (e :: tl) =
          e :: List.takeWhile (fun x : Str × Int => strLe x.1 d) tl := by
        simp [List.takeWhile_cons, h]
      rw [h1, advance_spec d tl e.2, h2, h3, List.map_cons,
        getLast?_cons_getD]
    · have h1 : advance d (e :: tl) cur = (e :: tl, cur) := by
        simp [advance, h]
      have h2 : List.dropWhile (fun x : Str × Int => strLe x.1 d) (e :: tl) =
          e :: tl := by
        simp [List.dropWhile_cons, h]
      have h3 : List.takeWhile (fun x : Str × Int => strLe x.1 d) (e :: tl) =
          [] := by
        simp [List.takeWhile_cons, h]
      rw [h1, h2, h3]
      rfl

theorem dropWhile_le_twice {d d' : Str} (hd : strLe d d' = true) :
    ∀ tl : List (Str × Int),
      (tl.dropWhile (fun e => strLe e.1 d)).dropWhile (fun e => strLe e.1 d') =
        tl.dropWhile (fun e => strLe e.1 d')
  | [] => rfl
  | e :: tl => by
    by_cases h : strLe e.1 d = true
    · have h2 : List.dropWhile (fun x : Str × Int => strLe x.1 d) (e :: tl) =
          List.dropWhile (fun x : Str × Int => strLe x.1 d) tl := by
        simp [List.dropWhile_cons, h]
      have h3 : List.dropWhile (fun x : Str × Int => strLe x.1 d') (e :: tl) =
          List.dropWhile (fun x : Str × Int => strLe x.1 d') tl := by
        simp [List.dropWhile_cons, strLe_trans e.1 d d' h hd]
      rw [h2, h3]
      exact dropWhile_le_twice hd tl
    · have h2 : List.dropWhile (fun x : Str × Int => strLe x.1 d) (e :: tl) =
          e :: tl := by
        simp [List.dropWhile_cons, h]
      rw [h2]

theorem takeWhile_le_split {d d' : Str} (hd : strLe d d' = true) :
    ∀ tl : List (Str × Int),
      tl.takeWhile (fun e => strLe e.1 d') =
        tl.takeWhile (fun e => strLe e.1 d) ++
          (tl.dropWhile (fun e => strLe e.1 d)).takeWhile (fun e => strLe e.1 d')
  | [] => rfl
  | e :: tl => by
    by_cases h : strLe e.1 d = true
    · have h2 : List.dropWhile (fun x : Str × Int => strLe x.1 d) (e :: tl) =
          List.dropWhile (fun x : Str × Int => strLe x.1 d) tl := by
        simp [List.dropWhile_cons, h]
      have h3 : List.takeWhile (fun x : Str × Int => strLe x.1 d) (e :: tl) =
          e :: List.takeWhile (fun x : Str × Int => strLe x.1 d) tl := by
        simp [List.takeWhile_cons, h]
      have h4 : List.takeWhile (fun x : Str × Int => strLe x.1 d') (e :: tl) =
          e :: List.takeWhile (fun x : Str × Int => strLe x.1 d') tl := by
        simp [List.takeWhile_cons, strLe_trans e.1 d d' h hd]
      rw [h2, h3, h4, List.cons_append, takeWhile_le_split hd tl]
    · have h2 : List.dropWhile (fun x : Str × Int => strLe x.1 d) (e :: tl) =
          e :: tl := by
        simp [List.dropWhile_cons, h]
      have h3 : List.takeWhile (fun x : Str × Int => strLe x.1 d) (e :: tl) =
          [] := by
        simp [List.takeWhile_cons, h]
      rw [h2, h3, List.nil_append]

theorem foldl_advance_spec : ∀ (ds : List Str) (dl : Str)
    (tl : List (Str × Int)) (cur : Int),
    ds.getLast? = some dl →
    List.Pairwise (fun a b => strLe a b = true) ds →
    List.foldl (fun st d => advance d st.1 st.2) (tl, cur) ds =
      (tl.dropWhile (fun e => strLe e.1 dl),
       ((tl.takeWhile (fun e => strLe e.1 dl)).map (fun e => e.2)).getLast?.getD cur)
  | [], dl, tl, cur, hlast, _ => by cases hlast
  | [d], dl, tl, cur, hlast, _ => by
    have hdl : d = dl := by simpa using hlast
    subst hdl
    simpa using advance_spec d tl cur
  | d :: d' :: rest, dl, tl, cur, hlast, hpair => by
    have hlast' : (d' :: rest).getLast? = some dl := by simpa using hlast
    have hmem : dl ∈ d' :: rest := List.mem_of_getLast?_eq_some hlast'
    have hd : strLe d dl = true := (List.pairwise_cons.mp hpair).1 dl hmem
    have hstep : List.foldl (fun st d => advance d st.1 st.2) (tl, cur)
        (d :: d' :: rest) =
        List.foldl (fun st d => advance d st.1 st.2) (advance d tl cur)
          (d' :: rest) := rfl
    rw [hstep, advance_spec d tl cur,
      foldl_advance_spec (d' :: rest) dl _ _ hlast'
        (List.pairwise_cons.mp hpair).2,
      dropWhile_le_twice hd tl]
    simp only [Prod.mk.injEq, true_and]
    rw [takeWhile_le_split hd tl, List.map_append, List.getLast?_append]
    rcases hB : (((tl.dropWhile (fun e => strLe e.1 d)).takeWhile
        (fun e => strLe e.1 dl)).map (fun e => e.2)).getLast? with _ | v
    · simp [hB]
    · simp [hB]

theorem goldTraceAux_mem : ∀ (ds : List Str) (states : GoldStates)
    (d : Str) (sts : GoldStates), (d, sts) ∈ goldTraceAux states ds →
    ∃ pre suf, ds = pre ++ d :: suf ∧
      sts = List.foldl stepDay states (pre ++ [d])
  | [], _, _, _, h => by cases h
  | d0 :: rest, states, d, sts, h => by
    rcases List.mem_cons.mp h with h0 | h0
    · injection h0 with hd hs
      subst hd
      exact ⟨[], rest, rfl, by simpa using hs⟩
    · rcases goldTraceAux_mem rest (stepDay states d0) d sts h0 with
        ⟨pre, suf, hds, hsts⟩
      exact ⟨d0 :: pre, suf, by rw [List.cons_append, hds], by
        rw [hsts]; rfl⟩

theorem foldl_stepDay_map (ds : List Str) :
    ∀ (xs : List (GoldSrc × List (Str × Int)))
      (f : GoldSrc × List (Str × Int) → List (Str × Int) × Int),
    List.foldl stepDay (xs.map (fun p => (p.1, f p))) ds =
      xs.map (fun p =>
        (p.1, List.foldl (fun st d => advance d st.1 st.2) (f p) ds)) := by
  induction ds with
  | nil => intro xs f; simp
  | cons d rest ih =>
    intro xs f
    rw [List.foldl_cons]
    have hstep : stepDay (xs.map (fun p => (p.1, f p))) d =
        xs.map (fun p => (p.1, advance d (f p).1 (f p).2)) := by
      unfold stepDay
      rw [List.map_map]
      rfl
    rw [hstep, ih xs (fun p => advance d (f p).1 (f p).2)]
    rfl

theorem assoc_mem_unique {α β : Type} [DecidableEq α]
    {m : List (α × β)} {k : α} {v v' : β}
    (hn : (m.map (fun p => p.1)).Nodup) (h1 : (k, v) ∈ m)
    (h2 : (k, v') ∈ m) : v = v' := by
  have e1 := alookup_of_mem_nodup hn h1
  have e2 := alookup_of_mem_nodup hn h2
  rw [e1] at e2
  exact Option.some.inj e2

theorem sourceTimeline_keys_nodup (raw : RawDump) :
    ((sourceTimeline raw).map (fun p => p.1)).Nodup := by
  unfold sourceTimeline
  suffices h : ∀ (l : RawDump) (acc : List (GoldSrc × List (Str × Int))),
      (acc.map (fun p => p.1)).Nodup →
      ((l.foldl (fun acc kv =>
        match kv.2 with
        | .int _ => acc
        | .str v =>
          match goldSource kv.1 with
          | none => acc
          | some src =>
            let entries := parse_gold_log v
            if entries.isEmpty then acc
            else
              let acc := if acc.any (fun p => p.1 = src) then acc
                         else acc ++ [(src, [])]
              mapAt acc src (fun m => entries.foldl (fun m e => dictSet m e.1 e.2) m))
        acc).map (fun p => p.1)).Nodup by
    exact h raw [] (by simp)
  intro l
  induction l with
  | nil => intro acc h; exact h
  | cons kv rest ih =>
    intro acc h
    rw [List.foldl_cons]
    apply ih
    rcases kv with ⟨k, v⟩
    rcases v with i | v
    · exact h
    · rcases hg : goldSource k with _ | src
      · simpa [hg] using h
      · simp only [hg]
        by_cases he : (parse_gold_log v).isEmpty
        · simpa [he] using h
        · simp only [he, if_false, Bool.false_eq_true]
          rw [mapAt_keys]
          by_cases hp : acc.any (fun p => p.1 = src)
          · simpa [hp] using h
          · have hnot : src ∉ acc.map (fun p => p.1) := by
              intro hmem
              rcases List.mem_map.mp hmem with ⟨p, hpm, hpe⟩
              have : acc.any (fun p => p.1 = src) = true :=
                List.any_eq_true.mpr ⟨p, hpm, by simp [hpe]⟩
              exact hp this
            simp only [hp, if_false, Bool.false_eq_true, List.map_append]
            rw [List.nodup_append]
            refine ⟨h, List.nodup_singleton src, ?_⟩
            intro a ha hb
            have hb' : a = src := by simpa using hb
            exact hnot (hb' ▸ ha)

theorem sourceSorted_keys_nodup (raw : RawDump) :
    ((sourceSorted raw).map (fun p => p.1)).Nodup := by
  unfold sourceSorted
  rw [List.map_map]
  exact sourceTimeline_keys_nodup raw

theorem sourceSorted_sorted (raw : RawDump) (src : GoldSrc)
    (tl : List (Str × Int)) (h : (src, tl) ∈ sourceSorted raw) :
    List.Pairwise (fun a b : Str × Int => strLe a.1 b.1 = true) tl := by
  unfold sourceSorted at h
  rcases List.mem_map.mp h with ⟨p, _, hpe⟩
  have htl : tl = List.insertionSort (fun a b => sampLe a b = true) p.2 :=
    (congrArg Prod.snd hpe).symm
  rw [htl]
  haveI ht : IsTotal (Str × Int) (fun a b => sampLe a b = true) :=
    ⟨fun a b => strLe_total a.1 b.1⟩
  haveI hr : IsTrans (Str × Int) (fun a b => sampLe a b = true) :=
    ⟨fun a b c h1 h2 => strLe_trans a.1 b.1 c.1 h1 h2⟩
  exact List.sorted_insertionSort (fun a b => sampLe a b = true) p.2

theorem allDates_sorted (raw : RawDump) :
    List.Pairwise (fun a b : Str => strLe a b = true) (allDates raw) := by
  unfold allDates
  haveI ht : IsTotal Str (fun a b => strLe a b = true) := ⟨strLe_total⟩
  haveI hr : IsTrans Str (fun a b => strLe a b = true) :=
    ⟨fun a b c h1 h2 => strLe_trans a b c h1 h2⟩
  exact List.sorted_insertionSort (fun a b => strLe a b = true) _

theorem sorted_filter_eq_takeWhile {d : Str} : ∀ {tl : List (Str × Int)},
    List.Pairwise (fun a b : Str × Int => strLe a.1 b.1 = true) tl →
    tl.filter (fun e => strLe e.1 d) = tl.takeWhile (fun e => strLe e.1 d) := by
  intro tl
  induction tl with
  | nil => intro _; rfl
  | cons e tl ih =>
    intro hp
    by_cases h : strLe e.1 d = true
    · have h1 : List.filter (fun x : Str × Int => strLe x.1 d) (e :: tl) =
          e :: List.filter (fun x : Str × Int => strLe x.1 d) tl := by
        simp [List.filter_cons, h]
      have h2 : List.takeWhile (fun x : Str × Int => strLe x.1 d) (e :: tl) =
          e :: List.takeWhile (fun x : Str × Int => strLe x.1 d) tl := by
        simp [List.takeWhile_cons, h]
      rw [h1, h2, ih (List.pairwise_cons.mp hp).2]
    · have h1 : List.filter (fun x : Str × Int => strLe x.1 d) (e :: tl) =
          List.filter (fun x : Str × Int => strLe x.1 d) tl := by
        simp [List.filter_cons, h]
      have h2 : List.takeWhile (fun x : Str × Int => strLe x.1 d) (e :: tl) =
          [] := by
        simp [List.takeWhile_cons, h]
      rw [h1, h2]
      rw [List.filter_eq_nil_iff]
      intro a ha
      intro hle
      have hentry := (List.pairwise_cons.mp hp).1 a ha
      exact h (strLe_trans e.1 a.1 d hentry (by simpa using hle))

/-- C2: for every entity present in the merged timeline and every date of
the merged timeline, the entity's forward-filled value (the
`current_vals` entry carried by the date loop) equals its most recent
collapsed sample dated at or before that date, or zero if none exists. -/
theorem C2_forward_fill_effective_value (raw : RawDump) (src : GoldSrc)
    (tl : List (Str × Int)) (d : Str) (sts : GoldStates)
    (st : List (Str × Int) × Int)
    (hsrc : (src, tl) ∈ sourceSorted raw)
    (htrace : (d, sts) ∈ goldTrace raw)
    (hst : (src, st) ∈ sts) :
    st.2 = (lastLE tl d).getD 0 := by
  unfold goldTrace at htrace
  rcases goldTraceAux_mem (allDates raw) _ d sts htrace with ⟨pre, suf, hds, hsts⟩
  rw [foldl_stepDay_map (pre ++ [d]) (sourceSorted raw)
    (fun p => (p.2, (0 : Int)))] at hsts
  subst hsts
  rcases List.mem_map.mp hst with ⟨p, hpm, hpe⟩
  have hfst : p.1 = src := congrArg Prod.fst hpe
  have hsnd : st = List.foldl (fun st d => advance d st.1 st.2)
      (p.2, (0 : Int)) (pre ++ [d]) := (congrArg Prod.snd hpe).symm
  have hptl : p.2 = tl := by
    have hp' : (src, p.2) ∈ sourceSorted raw := by
      rw [← hfst]
      exact hpm
    exact assoc_mem_unique (sourceSorted_keys_nodup raw) hp' hsrc
  rw [hptl] at hsnd
  have hpair : List.Pairwise (fun a b : Str => strLe a b = true) (pre ++ [d]) := by
    have hsub : List.Sublist (pre ++ [d]) (allDates raw) := by
      rw [hds, show pre ++ d :: suf = (pre ++ [d]) ++ suf by simp]
      exact List.sublist_append_left _ _
    exact (allDates_sorted raw).sublist hsub
  rw [hsnd, foldl_advance_spec (pre ++ [d]) d tl 0
    (List.getLast?_concat pre) hpair]
  unfold lastLE
  rw [sorted_filter_eq_takeWhile (sourceSorted_sorted raw src tl hsrc)]

/-- Witness for C2 on the worked example, at the later date. -/
theorem C2_forward_fill_effective_value_witness :
    ((GoldSrc.char (("Alice - Horde - Realm").data),
        [(("2024-01-01").data, (1000000 : Int)),
         (("2024-01-03").data, (2500000 : Int))]) ∈ sourceSorted exGoldRaw) ∧
    ((("2024-01-03").data,
        [(GoldSrc.char (("Alice - Horde - Realm").data),
          (([] : List (Str × Int)), (2500000 : Int)))]) ∈ goldTrace exGoldRaw) ∧
    (2500000 : Int) =
      (lastLE [(("2024-01-01").data, (1000000 : Int)),
               (("2024-01-03").data, (2500000 : Int))]
        (("2024-01-03").data)).getD 0 :=
  ⟨by decide, by decide,
   C2_forward_fill_effective_value exGoldRaw
     (GoldSrc.char (("Alice - Horde - Realm").data))
     [(("2024-01-01").data, (1000000 : Int)),
      (("2024-01-03").data, (2500000 : Int))]
     (("2024-01-03").data)
     [(GoldSrc.char (("Alice - Horde - Realm").data),
       (([] : List (Str × Int)), (2500000 : Int)))]
     (([] : List (Str × Int)), (2500000 : Int))
     (by decide) (by decide) (by decide)⟩

/-- C3 (counterexample): with one character and the warbank each holding
1.5 gold on the same day, the reported total (3) differs from the sum of
the independently truncated character and warbank figures (1 + 1): the
claimed identity is false for the only date of this timeline. -/
theorem C3_total_not_sum_of_truncations :
    ((extract_daily_gold_history c3raw).map
      (fun p => decide
        (p.2.total_gold = p.2.characters_gold + p.2.warbank_gold))) =
      [false] := by
  decide

/-- C3 (amended): for every date of the merged timeline, the three
reported figures are each truncated from their own minor-unit sums, and
the total's own minor-unit sum is exactly the character minor-unit
subtotal plus the warbank minor-unit subtotal.  (The reported total need
not equal the sum of the two reported subtotals.) -/
theorem C3_independent_truncations (raw : RawDump) (d : Str) (e : DayEntry)
    (h : (d, e) ∈ extract_daily_gold_history raw) :
    ∃ sts : GoldStates, (d, sts) ∈ goldTrace raw ∧
      e.characters_gold = truncGold (charCopper sts) ∧
      e.warbank_gold = truncGold (wbCopper sts) ∧
      e.total_gold = truncGold (charCopper sts + wbCopper sts) := by
  unfold extract_daily_gold_history at h
  rcases List.mem_map.mp h with ⟨p, hpm, hpe⟩
  injection hpe with h1 h2
  subst h1
  subst h2
  exact ⟨p.2, hpm, rfl, rfl, rfl⟩

/-- Witness for the amended C3 at the concrete mixed-holdings input. -/
theorem C3_independent_truncations_witness :
    ((("2024-01-01").data,
      ({ characters_gold := 1, warbank_gold := 1, total_gold := 3,
         characters := [(("Alice-Realm").data, 1)] } : DayEntry)) ∈
        extract_daily_gold_history c3raw) ∧
    (∃ sts : GoldStates, (("2024-01-01").data, sts) ∈ goldTrace c3raw ∧
      (1 : Int) = truncGold (charCopper sts) ∧
      (1 : Int) = truncGold (wbCopper sts) ∧
      (3 : Int) = truncGold (charCopper sts + wbCopper sts)) :=
  ⟨by decide,
   C3_independent_truncations c3raw (("2024-01-01").data)
     { characters_gold := 1, warbank_gold := 1, total_gold := 3,
       characters := [(("Alice-Realm").data, 1)] }
     (by decide)⟩

/-! ### Deduplication of the transaction record loop -/

theorem processTxSt_append : ∀ (a b : List (Bool × TxRec))
    (seen : List (Str × Str × Str × Str × Str)) (daily : List (Str × DayAgg)),
    processTxSt (a ++ b) seen daily =
      processTxSt b (processTxSt a seen daily).1 (processTxSt a seen daily).2
  | [], _, _, _ => rfl
  | (ch, r) :: rest, b, seen, daily => by
    by_cases h : txUid r ∈ seen
    · rw [List.cons_append,
        show processTxSt ((ch, r) :: (rest ++ b)) seen daily =
          processTxSt (rest ++ b) seen daily by simp [processTxSt, h],
        show processTxSt ((ch, r) :: rest) seen daily =
          processTxSt rest seen daily by simp [processTxSt, h]]
      exact processTxSt_append rest b seen daily
    · rw [List.cons_append,
        show processTxSt ((ch, r) :: (rest ++ b)) seen daily =
          processTxSt (rest ++ b) (txUid r :: seen) (applyTxRec daily ch r) by
            simp [processTxSt, h],
        show processTxSt ((ch, r) :: rest) seen daily =
          processTxSt rest (txUid r :: seen) (applyTxRec daily ch r) by
            simp [processTxSt, h]]
      exact processTxSt_append rest b _ _

theorem processTxSt_seen_mono : ∀ (s : List (Bool × TxRec))
    (seen : List (Str × Str × Str × Str × Str)) (daily : List (Str × DayAgg))
    (u : Str × Str × Str × Str × Str), u ∈ seen →
    u ∈ (processTxSt s seen daily).1
  | [], _, _, _, h => h
  | (ch, r) :: rest, seen, daily, u, h => by
    by_cases hs : txUid r ∈ seen
    · rw [show processTxSt ((ch, r) :: rest) seen daily =
          processTxSt rest seen daily by simp [processTxSt, hs]]
      exact processTxSt_seen_mono rest seen daily u h
    · rw [show processTxSt ((ch, r) :: rest) seen daily =
          processTxSt rest (txUid r :: seen) (applyTxRec daily ch r) by
            simp [processTxSt, hs]]
      exact processTxSt_seen_mono rest _ _ u (List.mem_cons_of_mem _ h)

theorem processTxSt_skip (s : List (Bool × TxRec))
    (seen : List (Str × Str × Str × Str × Str)) (daily : List (Str × DayAgg))
    (ch : Bool) (r : TxRec) (h : txUid r ∈ seen) :
    processTxSt ((ch, r) :: s) seen daily = processTxSt s seen daily := by
  simp [processTxSt, h]

/-- C4: deduplication idempotence.  If the decoded, channel-tagged record
stream of one dump contains a record twice (the duplicate having the same
identity tuple) and the stream of another dump is the same with the later
duplicate occurrence removed, the daily transaction aggregates of the two
dumps are identical. -/
theorem C4_dedup_idempotent (raw raw' : RawDump)
    (pre mid post : List (Bool × TxRec)) (ch ch' : Bool) (r r' : TxRec)
    (hs : txStream raw = pre ++ (ch, r) :: (mid ++ (ch', r') :: post))
    (hs' : txStream raw' = pre ++ (ch, r) :: (mid ++ post))
    (hu : txUid r' = txUid r) :
    extract_transactions raw = extract_transactions raw' := by
  unfold extract_transactions
  rw [show processTx (txStream raw) [] [] =
        (processTxSt (txStream raw) [] []).2 from rfl,
      show processTx (txStream raw') [] [] =
        (processTxSt (txStream raw') [] []).2 from rfl,
      hs, hs']
  suffices hgoal : processTxSt (pre ++ (ch, r) :: (mid ++ (ch', r') :: post)) [] [] =
      processTxSt (pre ++ (ch, r) :: (mid ++ post)) [] [] by
    rw [hgoal]
  rw [processTxSt_append pre ((ch, r) :: (mid ++ (ch', r') :: post)) [] [],
      processTxSt_append pre ((ch, r) :: (mid ++ post)) [] []]
  rcases hA : processTxSt pre [] [] with ⟨seen0, daily0⟩
  have key : ∀ (seen1 : List (Str × Str × Str × Str × Str))
      (daily1 : List (Str × DayAgg)), txUid r ∈ seen1 →
      processTxSt (mid ++ (ch', r') :: post) seen1 daily1 =
        processTxSt (mid ++ post) seen1 daily1 := by
    intro seen1 daily1 hmem
    rw [processTxSt_append mid ((ch', r') :: post) seen1 daily1,
        processTxSt_append mid post seen1 daily1]
    exact processTxSt_skip post _ _ ch' r'
      (hu ▸ processTxSt_seen_mono mid seen1 daily1 (txUid r) hmem)
  by_cases hseen : txUid r ∈ seen0
  · rw [processTxSt_skip _ seen0 daily0 ch r hseen,
        processTxSt_skip _ seen0 daily0 ch r hseen]
    exact key seen0 daily0 hseen
  · rw [show processTxSt ((ch, r) :: (mid ++ (ch', r') :: post)) seen0 daily0 =
        processTxSt (mid ++ (ch', r') :: post) (txUid r :: seen0)
          (applyTxRec daily0 ch r) by simp [processTxSt, hseen],
      show processTxSt ((ch, r) :: (mid ++ post)) seen0 daily0 =
        processTxSt (mid ++ post) (txUid r :: seen0)
          (applyTxRec daily0 ch r) by simp [processTxSt, hseen]]
    exact key _ _ (List.mem_cons_self _ _)

/-- Witness for C4: the same row re-exported by two income sources
(overlapping ranges) aggregates identically to the row appearing once. -/
theorem C4_dedup_idempotent_witness :
    txStream c4raw = [] ++ (true, exTxRec) :: ([] ++ (true, exTxRec) :: []) ∧
    txStream c4raw' = [] ++ (true, exTxRec) :: ([] ++ []) ∧
    extract_transactions c4raw = extract_transactions c4raw' :=
  ⟨by decide, by decide,
   C4_dedup_idempotent c4raw c4raw' [] [] [] true true exTxRec exTxRec
     (by decide) (by decide) rfl⟩

/-! ### Exactness of 4-place rounding on copper-representable amounts -/

theorem round4_of_copper (k : Int) :
    round4 ((k : ℚ) / 10000) = (k : ℚ) / 10000 := by
  unfold round4 rndHalfEven
  rw [div_mul_cancel₀ (k : ℚ) (by norm_num : (10000 : ℚ) ≠ 0)]
  rw [Int.floor_intCast]
  simp

theorem amountGold_eq (r : TxRec) :
    amountGold r = (r.amount_copper : ℚ) / 10000 := by
  unfold amountGold copper_to_gold
  exact round4_of_copper r.amount_copper

/-- C5: for every date of the daily transaction aggregate, the net figure
equals the income figure minus the expense figure, rounded to 4 decimal
places. -/
theorem C5_net_reconciliation (raw : RawDump) (d : Str) (agg : DayAggOut)
    (h : (d, agg) ∈ extract_transactions raw) :
    agg.net_gold = round4 (agg.income_gold - agg.expense_gold) := by
  unfold extract_transactions at h
  rw [List.mem_insertionSort] at h
  rcases List.mem_map.mp h with ⟨p, _, hpe⟩
  injection hpe with h1 h2
  subst h2
  rfl

/-- Witness for C5: the single aggregate row of the one-record dump. -/
theorem C5_net_reconciliation_witness :
    extract_transactions c4raw' ≠ [] ∧
    ((extract_transactions c4raw').headD
        ([], { income_gold := 0, expense_gold := 0, net_gold := 0,
               by_type := [] })).2.net_gold =
      round4 (((extract_transactions c4raw').headD
        ([], { income_gold := 0, expense_gold := 0, net_gold := 0,
               by_type := [] })).2.income_gold -
        ((extract_transactions c4raw').headD
        ([], { income_gold := 0, expense_gold := 0, net_gold := 0,
               by_type := [] })).2.expense_gold) := by
  have hne : extract_transactions c4raw' ≠ [] := by
    intro h
    have : (extract_transactions c4raw').length = 0 := by rw [h]; rfl
    have hlen : (extract_transactions c4raw').length = 1 := by decide
    rw [hlen] at this
    cases this
  refine ⟨hne, ?_⟩
  have hmem : (extract_transactions c4raw').headD
      ([], { income_gold := 0, expense_gold := 0, net_gold := 0,
             by_type := [] }) ∈ extract_transactions c4raw' := by
    rcases hl : extract_transactions c4raw' with _ | ⟨x, xs⟩
    · exact absurd hl hne
    · rw [List.headD_cons]
      exact List.mem_cons_self x xs
  exact C5_net_reconciliation c4raw' _ _ hmem

theorem alookup_some_of_any {α β : Type} [DecidableEq α]
    {m : List (α × β)} {k : α} (h : m.any (fun p => p.1 = k) = true) :
    ∃ v, alookup m k = some v := by
  induction m with
  | nil => cases h
  | cons p rest ih =>
    by_cases hp : p.1 = k
    · exact ⟨p.2, by rw [alookup_cons, if_pos hp]⟩
    · have h' : rest.any (fun p => p.1 = k) = true := by
        rcases List.any_eq_true.mp h with ⟨q, hq, hqe⟩
        rcases List.mem_cons.mp hq with rfl | hq'
        · exact absurd (by simpa using hqe) hp
        · exact List.any_eq_true.mpr ⟨q, hq', hqe⟩
      rcases ih h' with ⟨v, hv⟩
      exact ⟨v, by rw [alookup_cons, if_neg hp]; exact hv⟩

theorem getDay_applyTxRec (m : List (Str × DayAgg)) (ch : Bool) (r : TxRec)
    (d : Str) :
    getDay (applyTxRec m ch r) d =
      if r.date = d then dayUpdate ch r (getDay m d) else getDay m d := by
  rw [show applyTxRec m ch r =
      mapAt (if m.any (fun p => p.1 = r.date) then m
             else m ++ [(r.date, emptyDayAgg)]) r.date (dayUpdate ch r)
    from rfl]
  by_cases hd : r.date = d
  · subst hd
    rw [if_pos rfl]
    unfold getDay
    by_cases hany : m.any (fun p => p.1 = r.date)
    · rw [if_pos hany, alookup_mapAt_self]
      rcases alookup_some_of_any hany with ⟨v, hv⟩
      rw [hv]
      rfl
    · rw [if_neg hany, alookup_mapAt_self,
        alookup_append_single m r.date r.date emptyDayAgg,
        alookup_eq_none m r.date (by rw [Bool.not_eq_true] at hany; exact hany)]
      simp [Option.orElse]
  · rw [if_neg hd]
    unfold getDay
    rw [alookup_mapAt_ne _ _ _ _ (fun e => hd e.symm)]
    by_cases hany : m.any (fun p => p.1 = r.date)
    · rw [if_pos hany]
    · rw [if_neg hany,
        alookup_append_single m r.date d emptyDayAgg]
      rw [show (if d = r.date then some emptyDayAgg else none) = none from
        if_neg (fun e => hd e.symm)]
      rcases halk : alookup m d with _ | v <;> simp [Option.orElse, halk]

theorem dayUpdate_income (ch : Bool) (r : TxRec) (da : DayAgg) :
    (dayUpdate ch r da).income_gold =
      if ch then round4 (da.income_gold + |amountGold r|)
      else da.income_gold := by
  unfold dayUpdate
  by_cases hbt : da.by_type.any (fun p => p.1 = r.rtype) <;>
    rcases ch <;> simp [hbt]

theorem dayUpdate_expense (ch : Bool) (r : TxRec) (da : DayAgg) :
    (dayUpdate ch r da).expense_gold =
      if ch then da.expense_gold
      else round4 (da.expense_gold + |amountGold r|) := by
  unfold dayUpdate
  by_cases hbt : da.by_type.any (fun p => p.1 = r.rtype) <;>
    rcases ch <;> simp [hbt]

theorem alookup_ensure_self {α β : Type} [DecidableEq α]
    (m : List (α × β)) (k : α) (v0 : β) :
    alookup (if m.any (fun p => p.1 = k) then m else m ++ [(k, v0)]) k =
      some ((alookup m k).getD v0) := by
  by_cases hany : m.any (fun p => p.1 = k)
  · rw [if_pos hany]
    rcases alookup_some_of_any hany with ⟨v, hv⟩
    rw [hv]
    rfl
  · rw [if_neg hany, alookup_append_single m k k v0,
      alookup_eq_none m k (by rw [Bool.not_eq_true] at hany; exact hany)]
    simp [Option.orElse]

theorem alookup_ensure_ne {α β : Type} [DecidableEq α]
    (m : List (α × β)) (k k' : α) (v0 : β) (h : k' ≠ k) :
    alookup (if m.any (fun p => p.1 = k) then m else m ++ [(k, v0)]) k' =
      alookup m k' := by
  by_cases hany : m.any (fun p => p.1 = k)
  · rw [if_pos hany]
  · rw [if_neg hany, alookup_append_single m k k' v0, if_neg h]
    rcases halk : alookup m k' with _ | v <;> simp [Option.orElse, halk]

theorem dayUpdate_count (ch : Bool) (r : TxRec) (da : DayAgg) (t : Str) :
    (getType (dayUpdate ch r da) t).count =
      if r.rtype = t then (getType da t).count + 1
      else (getType da t).count := by
  have hens := alookup_ensure_self da.by_type r.rtype emptyTypeAgg
  have hbt : (if (da.by_type.any fun p => p.1 = r.rtype) = true then da
      else { income_gold := da.income_gold, expense_gold := da.expense_gold,
             by_type := da.by_type ++ [(r.rtype, emptyTypeAgg)] }).by_type =
      (if (da.by_type.any fun p => p.1 = r.rtype) = true then da.by_type
       else da.by_type ++ [(r.rtype, emptyTypeAgg)]) := by
    by_cases hany : (da.by_type.any fun p => p.1 = r.rtype) = true <;>
      simp [hany]
  by_cases ht : r.rtype = t
  · subst ht
    rw [if_pos rfl]
    rcases ch <;>
      (unfold dayUpdate getType
       simp only [Bool.false_eq_true, if_false, if_true]
       rw [alookup_mapAt_self, alookup_mapAt_self, hbt, hens]
       rfl)
  · rw [if_neg ht]
    have ht' : t ≠ r.rtype := fun e => ht e.symm
    have hens' := alookup_ensure_ne da.by_type r.rtype t emptyTypeAgg ht'
    rcases ch <;>
      (unfold dayUpdate getType
       simp only [Bool.false_eq_true, if_false, if_true]
       rw [alookup_mapAt_ne _ _ _ _ ht', alookup_mapAt_ne _ _ _ _ ht',
         hbt, hens'])

theorem processTx_eq_dedup_fold : ∀ (s : List (Bool × TxRec))
    (seen : List (Str × Str × Str × Str × Str)) (daily : List (Str × DayAgg)),
    processTx s seen daily =
      (dedupFrom s seen).foldl (fun dd p => applyTxRec dd p.1 p.2) daily
  | [], _, _ => rfl
  | (ch, r) :: rest, seen, daily => by
    by_cases h : txUid r ∈ seen
    · rw [show processTx ((ch, r) :: rest) seen daily =
          processTx rest seen daily by simp [processTx, processTxSt, h],
        show dedupFrom ((ch, r) :: rest) seen = dedupFrom rest seen by
          simp [dedupFrom, h]]
      exact processTx_eq_dedup_fold rest seen daily
    · rw [show processTx ((ch, r) :: rest) seen daily =
          processTx rest (txUid r :: seen) (applyTxRec daily ch r) by
            simp [processTx, processTxSt, h],
        show dedupFrom ((ch, r) :: rest) seen =
          (ch, r) :: dedupFrom rest (txUid r :: seen) by simp [dedupFrom, h]]
      rw [List.foldl_cons]
      exact processTx_eq_dedup_fold rest _ _

theorem fold_income (d : Str) : ∀ (recs : List (Bool × TxRec))
    (m : List (Str × DayAgg)),
    (getDay (recs.foldl (fun dd p => applyTxRec dd p.1 p.2) m) d).income_gold =
      roundAccum (getDay m d).income_gold
        ((recs.filter (fun p => p.1 && decide (p.2.date = d))).map
          (fun p => |amountGold p.2|))
  | [], m => rfl
  | (ch, r) :: rest, m => by
    rw [List.foldl_cons]
    rw [fold_income d rest (applyTxRec m ch r)]
    rw [getDay_applyTxRec]
    by_cases hd : r.date = d
    · rcases ch
      · rw [show ((false, r) :: rest).filter (fun p => p.1 && decide (p.2.date = d)) =
            rest.filter (fun p => p.1 && decide (p.2.date = d)) by
          simp [List.filter_cons]]
        rw [if_pos hd, dayUpdate_income]
        rfl
      · rw [show ((true, r) :: rest).filter (fun p => p.1 && decide (p.2.date = d)) =
            (true, r) :: rest.filter (fun p => p.1 && decide (p.2.date = d)) by
          simp [List.filter_cons, hd]]
        rw [if_pos hd, dayUpdate_income]
        rw [List.map_cons]
        rfl
    · rw [if_neg hd]
      rw [show ((ch, r) :: rest).filter (fun p => p.1 && decide (p.2.date = d)) =
          rest.filter (fun p => p.1 && decide (p.2.date = d)) by
        simp [List.filter_cons, hd]]

theorem fold_expense (d : Str) : ∀ (recs : List (Bool × TxRec))
    (m : List (Str × DayAgg)),
    (getDay (recs.foldl (fun dd p => applyTxRec dd p.1 p.2) m) d).expense_gold =
      roundAccum (getDay m d).expense_gold
        ((recs.filter (fun p => !p.1 && decide (p.2.date = d))).map
          (fun p => |amountGold p.2|))
  | [], m => rfl
  | (ch, r) :: rest, m => by
    rw [List.foldl_cons]
    rw [fold_expense d rest (applyTxRec m ch r)]
    rw [getDay_applyTxRec]
    by_cases hd : r.date = d
    · rcases ch
      · rw [show ((false, r) :: rest).filter (fun p => !p.1 && decide (p.2.date = d)) =
            (false, r) :: rest.filter (fun p => !p.1 && decide (p.2.date = d)) by
          simp [List.filter_cons, hd]]
        rw [if_pos hd, dayUpdate_expense]
        rw [List.map_cons]
        rfl
      · rw [show ((true, r) :: rest).filter (fun p => !p.1 && decide (p.2.date = d)) =
            rest.filter (fun p => !p.1 && decide (p.2.date = d)) by
          simp [List.filter_cons]]
        rw [if_pos hd, dayUpdate_expense]
        rfl
    · rw [if_neg hd]
      rw [show ((ch, r) :: rest).filter (fun p => !p.1 && decide (p.2.date = d)) =
          rest.filter (fun p => !p.1 && decide (p.2.date = d)) by
        simp [List.filter_cons, hd]]

theorem fold_count (d t : Str) : ∀ (recs : List (Bool × TxRec))
    (m : List (Str × DayAgg)),
    (getType (getDay (recs.foldl (fun dd p => applyTxRec dd p.1 p.2) m) d)
        t).count =
      (getType (getDay m d) t).count +
        (recs.filter (fun p =>
          decide (p.2.date = d) && decide (p.2.rtype = t))).length
  | [], m => rfl
  | (ch, r) :: rest, m => by
    rw [List.foldl_cons]
    rw [fold_count d t rest (applyTxRec m ch r)]
    rw [getDay_applyTxRec]
    by_cases hd : r.date = d
    · rw [if_pos hd]
      by_cases ht : r.rtype = t
      · rw [show ((ch, r) :: rest).filter (fun p =>
            decide (p.2.date = d) && decide (p.2.rtype = t)) =
            (ch, r) :: rest.filter (fun p =>
              decide (p.2.date = d) && decide (p.2.rtype = t)) by
          simp [List.filter_cons, hd, ht]]
        rw [List.length_cons, dayUpdate_count, if_pos ht]
        omega
      · rw [show ((ch, r) :: rest).filter (fun p =>
            decide (p.2.date = d) && decide (p.2.rtype = t)) =
            rest.filter (fun p =>
              decide (p.2.date = d) && decide (p.2.rtype = t)) by
          simp [List.filter_cons, hd, ht]]
        rw [dayUpdate_count, if_neg ht]
    · rw [if_neg hd]
      rw [show ((ch, r) :: rest).filter (fun p =>
          decide (p.2.date = d) && decide (p.2.rtype = t)) =
          rest.filter (fun p =>
            decide (p.2.date = d) && decide (p.2.rtype = t)) by
        simp [List.filter_cons, hd]]

theorem ensure_keys_nodup {α β : Type} [DecidableEq α]
    {m : List (α × β)} (k : α) (v0 : β)
    (h : (m.map (fun p => p.1)).Nodup) :
    (((if m.any (fun p => p.1 = k) then m else m ++ [(k, v0)]).map
      (fun p => p.1))).Nodup := by
  by_cases hany : m.any (fun p => p.1 = k)
  · rw [if_pos hany]
    exact h
  · rw [if_neg hany, List.map_append, List.nodup_append]
    refine ⟨h, List.nodup_singleton k, ?_⟩
    intro a ha hb
    have hb' : a = k := by simpa using hb
    subst hb'
    rcases List.mem_map.mp ha with ⟨q, hq, hqe⟩
    exact hany (List.any_eq_true.mpr ⟨q, hq, by simp [hqe]⟩)

theorem applyTxRec_keys_nodup (m : List (Str × DayAgg)) (ch : Bool)
    (r : TxRec) (h : (m.map (fun p => p.1)).Nodup) :
    (((applyTxRec m ch r).map (fun p => p.1))).Nodup := by
  rw [show applyTxRec m ch r =
      mapAt (if m.any (fun p => p.1 = r.date) then m
             else m ++ [(r.date, emptyDayAgg)]) r.date (dayUpdate ch r)
    from rfl]
  rw [mapAt_keys]
  exact ensure_keys_nodup r.date emptyDayAgg h

theorem fold_keys_nodup : ∀ (recs : List (Bool × TxRec))
    (m : List (Str × DayAgg)), (m.map (fun p => p.1)).Nodup →
    (((recs.foldl (fun dd p => applyTxRec dd p.1 p.2) m).map
      (fun p => p.1))).Nodup
  | [], _, h => h
  | (ch, r) :: rest, m, h => by
    rw [List.foldl_cons]
    exact fold_keys_nodup rest _ (applyTxRec_keys_nodup m ch r h)

theorem dayUpdate_byType_nodup (ch : Bool) (r : TxRec) (da : DayAgg)
    (h : (da.by_type.map (fun p => p.1)).Nodup) :
    (((dayUpdate ch r da).by_type).map (fun p => p.1)).Nodup := by
  have hbt : (if (da.by_type.any fun p => p.1 = r.rtype) = true then da
      else { income_gold := da.income_gold, expense_gold := da.expense_gold,
             by_type := da.by_type ++ [(r.rtype, emptyTypeAgg)] }).by_type =
      (if (da.by_type.any fun p => p.1 = r.rtype) = true then da.by_type
       else da.by_type ++ [(r.rtype, emptyTypeAgg)]) := by
    by_cases hany : (da.by_type.any fun p => p.1 = r.rtype) = true <;>
      simp [hany]
  have hensn := ensure_keys_nodup r.rtype emptyTypeAgg h
  rcases ch <;>
    (unfold dayUpdate
     simp only [Bool.false_eq_true, if_false, if_true]
     rw [mapAt_keys, mapAt_keys, hbt]
     exact hensn)

theorem fold_byType_nodup : ∀ (recs : List (Bool × TxRec))
    (m : List (Str × DayAgg)),
    (∀ q ∈ m, ((q.2.by_type.map (fun p => p.1))).Nodup) →
    ∀ q ∈ recs.foldl (fun dd p => applyTxRec dd p.1 p.2) m,
      ((q.2.by_type.map (fun p => p.1))).Nodup
  | [], _, h => h
  | (ch, r) :: rest, m, h => by
    rw [List.foldl_cons]
    apply fold_byType_nodup rest
    intro q hq
    rw [show applyTxRec m ch r =
        mapAt (if m.any (fun p => p.1 = r.date) then m
               else m ++ [(r.date, emptyDayAgg)]) r.date (dayUpdate ch r)
      from rfl] at hq
    unfold mapAt at hq
    rcases List.mem_map.mp hq with ⟨p, hp, hpe⟩
    have hp' : p ∈ m ∨ p = (r.date, emptyDayAgg) := by
      by_cases hany : m.any (fun p => p.1 = r.date)
      · rw [if_pos hany] at hp
        exact Or.inl hp
      · rw [if_neg hany] at hp
        rcases List.mem_append.mp hp with h1 | h1
        · exact Or.inl h1
        · exact Or.inr (by simpa using h1)
    have hpnodup : ((p.2.by_type.map (fun p => p.1))).Nodup := by
      rcases hp' with h1 | h1
      · exact h p h1
      · rw [h1]
        exact List.nodup_nil
    by_cases hpk : p.1 = r.date
    · rw [← hpe]
      simp only [hpk, if_pos rfl]
      exact dayUpdate_byType_nodup ch r p.2 hpnodup
    · rw [← hpe]
      simp only [hpk, if_false]
      exact hpnodup

/-- C8: for every date of the aggregate, the income bucket is exactly the
rounding-accumulated sum of `abs(amount_gold)` over the deduplicated
records of that date that came from an income-channel (`csvIncome`)
source, and the expense bucket the same over the expense-channel
(`csvExpense`) records — regardless of the sign of the raw amounts. -/
theorem C8_channel_determines_bucket (raw : RawDump) (d : Str)
    (agg : DayAggOut) (h : (d, agg) ∈ extract_transactions raw) :
    agg.income_gold = roundAccum 0
      (((dedupedRecords raw).filter
        (fun p => p.1 && decide (p.2.date = d))).map
          (fun p => |amountGold p.2|)) ∧
    agg.expense_gold = roundAccum 0
      (((dedupedRecords raw).filter
        (fun p => !p.1 && decide (p.2.date = d))).map
          (fun p => |amountGold p.2|)) := by
  unfold extract_transactions at h
  rw [List.mem_insertionSort] at h
  rcases List.mem_map.mp h with ⟨p, hpm, hpe⟩
  injection hpe with h1 h2
  subst h1
  subst h2
  have hdedup : processTx (txStream raw) [] [] =
      (dedupedRecords raw).foldl (fun dd q => applyTxRec dd q.1 q.2) [] :=
    processTx_eq_dedup_fold (txStream raw) [] []
  have hkeys := fold_keys_nodup (dedupedRecords raw) [] (by simp)
  rw [hdedup] at hpm
  have hday : getDay ((dedupedRecords raw).foldl
      (fun dd q => applyTxRec dd q.1 q.2) []) p.1 = p.2 := by
    unfold getDay
    rw [alookup_of_mem_nodup hkeys hpm]
    rfl
  constructor
  · have := fold_income p.1 (dedupedRecords raw) []
    rw [hday] at this
    exact this
  · have := fold_expense p.1 (dedupedRecords raw) []
    rw [hday] at this
    exact this

/-- Witness for C8 at a dump with one income row and one negative-amount
expense row on the same date. -/
theorem C8_channel_determines_bucket_witness :
    extract_transactions c8raw ≠ [] ∧
    (((extract_transactions c8raw).headD
        ([], { income_gold := 0, expense_gold := 0, net_gold := 0,
               by_type := [] })).2.income_gold = roundAccum 0
      (((dedupedRecords c8raw).filter
        (fun p => p.1 && decide (p.2.date =
          ((extract_transactions c8raw).headD
            ([], { income_gold := 0, expense_gold := 0, net_gold := 0,
                   by_type := [] })).1))).map
          (fun p => |amountGold p.2|)) ∧
    ((extract_transactions c8raw).headD
        ([], { income_gold := 0, expense_gold := 0, net_gold := 0,
               by_type := [] })).2.expense_gold = roundAccum 0
      (((dedupedRecords c8raw).filter
        (fun p => !p.1 && decide (p.2.date =
          ((extract_transactions c8raw).headD
            ([], { income_gold := 0, expense_gold := 0, net_gold := 0,
                   by_type := [] })).1))).map
          (fun p => |amountGold p.2|))) := by
  have hne : extract_transactions c8raw ≠ [] := by
    intro h
    have : (extract_transactions c8raw).length = 0 := by rw [h]; rfl
    have hlen : (extract_transactions c8raw).length = 1 := by decide
    rw [hlen] at this
    cases this
  refine ⟨hne, ?_⟩
  have hmem : (extract_transactions c8raw).headD
      ([], { income_gold := 0, expense_gold := 0, net_gold := 0,
             by_type := [] }) ∈ extract_transactions c8raw := by
    rcases hl : extract_transactions c8raw with _ | ⟨x, xs⟩
    · exact absurd hl hne
    · rw [List.headD_cons]
      exact List.mem_cons_self x xs
  exact C8_channel_determines_bucket c8raw _ _ hmem

/-- C10: for every date and category of the aggregate, the count field
equals the number of deduplicated records with that date and category
across both channels. -/
theorem C10_count_spans_channels (raw : RawDump) (d : Str)
    (agg : DayAggOut) (t : Str) (ta : TypeAgg)
    (h : (d, agg) ∈ extract_transactions raw) (ht : (t, ta) ∈ agg.by_type) :
    ta.count = ((dedupedRecords raw).filter (fun p =>
      decide (p.2.date = d) && decide (p.2.rtype = t))).length := by
  unfold extract_transactions at h
  rw [List.mem_insertionSort] at h
  rcases List.mem_map.mp h with ⟨p, hpm, hpe⟩
  injection hpe with h1 h2
  subst h1
  subst h2
  have hdedup : processTx (txStream raw) [] [] =
      (dedupedRecords raw).foldl (fun dd q => applyTxRec dd q.1 q.2) [] :=
    processTx_eq_dedup_fold (txStream raw) [] []
  have hkeys := fold_keys_nodup (dedupedRecords raw) [] (by simp)
  rw [hdedup] at hpm
  have hday : getDay ((dedupedRecords raw).foldl
      (fun dd q => applyTxRec dd q.1 q.2) []) p.1 = p.2 := by
    unfold getDay
    rw [alookup_of_mem_nodup hkeys hpm]
    rfl
  have hbtn : ((p.2.by_type.map (fun q => q.1))).Nodup :=
    fold_byType_nodup (dedupedRecords raw) [] (by intro q hq; cases hq) p hpm
  have hta : getType p.2 t = ta := by
    unfold getType
    rw [alookup_of_mem_nodup hbtn (by simpa using ht)]
    rfl
  have := fold_count p.1 t (dedupedRecords raw) []
  rw [hday, hta] at this
  rw [show (getType (getDay ([] : List (Str × DayAgg)) p.1) t).count = 0
    from rfl, Nat.zero_add] at this
  exact this

/-- Witness for C10 at the same two-channel dump, first category slot. -/
theorem C10_count_spans_channels_witness :
    extract_transactions c8raw ≠ [] ∧
    ((extract_transactions c8raw).headD
        ([], { income_gold := 0, expense_gold := 0, net_gold := 0,
               by_type := [] })).2.by_type ≠ [] ∧
    (((extract_transactions c8raw).headD
        ([], { income_gold := 0, expense_gold := 0, net_gold := 0,
               by_type := [] })).2.by_type.headD
        ([], { income_gold := 0, expense_gold := 0, count := 0 })).2.count =
      ((dedupedRecords c8raw).filter (fun p =>
        decide (p.2.date = ((extract_transactions c8raw).headD
          ([], { income_gold := 0, expense_gold := 0, net_gold := 0,
                 by_type := [] })).1) &&
        decide (p.2.rtype = (((extract_transactions c8raw).headD
          ([], { income_gold := 0, expense_gold := 0, net_gold := 0,
                 by_type := [] })).2.by_type.headD
          ([], { income_gold := 0, expense_gold := 0, count := 0 })).1))).length := by
  have hne : extract_transactions c8raw ≠ [] := by
    intro h
    have : (extract_transactions c8raw).length = 0 := by rw [h]; rfl
    have hlen : (extract_transactions c8raw).length = 1 := by decide
    rw [hlen] at this
    cases this
  have hmem : (extract_transactions c8raw).headD
      ([], { income_gold := 0, expense_gold := 0, net_gold := 0,
             by_type := [] }) ∈ extract_transactions c8raw := by
    rcases hl : extract_transactions c8raw with _ | ⟨x, xs⟩
    · exact absurd hl hne
    · rw [List.headD_cons]
      exact List.mem_cons_self x xs
  have hbne : ((extract_transactions c8raw).headD
      ([], { income_gold := 0, expense_gold := 0, net_gold := 0,
             by_type := [] })).2.by_type ≠ [] := by
    intro h
    have : (((extract_transactions c8raw).headD
        ([], { income_gold := 0, expense_gold := 0, net_gold := 0,
               by_type := [] })).2.by_type).length = 0 := by rw [h]; rfl
    have hlen : (((extract_transactions c8raw).headD
        ([], { income_gold := 0, expense_gold := 0, net_gold := 0,
               by_type := [] })).2.by_type).length = 2 := by decide
    rw [hlen] at this
    cases this
  have hbmem : (((extract_transactions c8raw).headD
      ([], { income_gold := 0, expense_gold := 0, net_gold := 0,
             by_type := [] })).2.by_type.headD
      ([], { income_gold := 0, expense_gold := 0, count := 0 })) ∈
      ((extract_transactions c8raw).headD
      ([], { income_gold := 0, expense_gold := 0, net_gold := 0,
             by_type := [] })).2.by_type := by
    rcases hl : ((extract_transactions c8raw).headD
        ([], { income_gold := 0, expense_gold := 0, net_gold := 0,
               by_type := [] })).2.by_type with _ | ⟨x, xs⟩
    · exact absurd hl hbne
    · rw [List.headD_cons]
      exact List.mem_cons_self x xs
  exact ⟨hne, hbne, C10_count_spans_channels c8raw _ _ _ _ hmem hbmem⟩

/-! ### The `setdefault`-append grouping -/

theorem groupAppend_step {α β : Type} [DecidableEq α] (f : β → α) (r : β)
    (processed : List β) (acc : List (α × List β))
    (hnodup : (acc.map (fun p => p.1)).Nodup)
    (hgrp : ∀ k g, (k, g) ∈ acc →
      g = processed.filter (fun x => decide (f x = k)) ∧ g ≠ [])
    (habs : ∀ k, k ∉ acc.map (fun p => p.1) →
      processed.filter (fun x => decide (f x = k)) = []) :
    ((groupAppend acc (f r) r).map (fun p => p.1)).Nodup ∧
    (∀ k g, (k, g) ∈ groupAppend acc (f r) r →
      g = (processed ++ [r]).filter (fun x => decide (f x = k)) ∧ g ≠ []) ∧
    (∀ k, k ∉ (groupAppend acc (f r) r).map (fun p => p.1) →
      (processed ++ [r]).filter (fun x => decide (f x = k)) = []) := by
  have hkeys : (groupAppend acc (f r) r).map (fun p => p.1) =
      (if acc.any (fun p => p.1 = f r) then acc.map (fun p => p.1)
       else acc.map (fun p => p.1) ++ [f r]) := by
    unfold groupAppend
    by_cases hany : acc.any (fun p => p.1 = f r)
    · rw [if_pos hany, if_pos hany, mapAt_keys]
    · rw [if_neg hany, if_neg hany, List.map_append]
      rfl
  refine ⟨?_, ?_, ?_⟩
  · rw [hkeys]
    by_cases hany : acc.any (fun p => p.1 = f r)
    · rw [if_pos hany]
      exact hnodup
    · rw [if_neg hany, List.nodup_append]
      refine ⟨hnodup, List.nodup_singleton _, ?_⟩
      intro a ha hb
      have hb' : a = f r := by simpa using hb
      subst hb'
      rcases List.mem_map.mp ha with ⟨q, hq, hqe⟩
      exact hany (List.any_eq_true.mpr ⟨q, hq, by simp [hqe]⟩)
  · intro k g hkg
    unfold groupAppend at hkg
    by_cases hany : acc.any (fun p => p.1 = f r)
    · rw [if_pos hany] at hkg
      unfold mapAt at hkg
      rcases List.mem_map.mp hkg with ⟨p, hp, hpe⟩
      by_cases hpk : p.1 = f r
      · rw [if_pos hpk] at hpe
        injection hpe with he1 he2
        subst he1
        rcases hgrp p.1 p.2 hp with ⟨hg1, _⟩
        constructor
        · rw [← he2, List.filter_append,
            show List.filter (fun x => decide (f x = p.1)) [r] = [r] by
              simp [List.filter_cons, hpk.symm],
            ← hg1]
        · rw [← he2]
          simp
      · rw [if_neg hpk] at hpe
        subst hpe
        rcases hgrp k g hp with ⟨hg1, hg2⟩
        have hne : ¬(f r = k) := by
          intro e
          exact hpk (by simp [e])
        refine ⟨?_, hg2⟩
        rw [List.filter_append,
          show List.filter (fun x => decide (f x = k)) [r] = [] by
            simp [List.filter_cons, hne],
          List.append_nil]
        exact hg1
    · rw [if_neg hany] at hkg
      rcases List.mem_append.mp hkg with h1 | h1
      · rcases hgrp k g h1 with ⟨hg1, hg2⟩
        have hkne : ¬(f r = k) := by
          intro e
          exact hany (List.any_eq_true.mpr ⟨(k, g), h1, by simp [e]⟩)
        refine ⟨?_, hg2⟩
        rw [List.filter_append,
          show List.filter (fun x => decide (f x = k)) [r] = [] by
            simp [List.filter_cons, hkne],
          List.append_nil]
        exact hg1
      · have h2 : (k, g) = (f r, [r]) := by simpa using h1
        injection h2 with he1 he2
        have hfr : k ∉ acc.map (fun p => p.1) := by
          intro hmem
          rcases List.mem_map.mp hmem with ⟨q, hq, hqe⟩
          exact hany (List.any_eq_true.mpr ⟨q, hq, by simp [hqe, he1]⟩)
        refine ⟨?_, by rw [he2]; simp⟩
        rw [List.filter_append, habs k hfr,
          show List.filter (fun x => decide (f x = k)) [r] = [r] by
            simp [List.filter_cons, he1.symm], List.nil_append]
        exact he2
  · intro k hk
    rw [hkeys] at hk
    by_cases hany : acc.any (fun p => p.1 = f r)
    · rw [if_pos hany] at hk
      have hne : ¬(f r = k) := by
        intro e
        rcases List.any_eq_true.mp hany with ⟨q, hq, hqe⟩
        exact hk (e ▸ List.mem_map.mpr ⟨q, hq, by simpa using hqe⟩)
      rw [List.filter_append, habs k hk,
        show List.filter (fun x => decide (f x = k)) [r] = [] by
          simp [List.filter_cons, hne], List.append_nil]
    · rw [if_neg hany] at hk
      have hk1 : k ∉ acc.map (fun p => p.1) := fun h =>
        hk (List.mem_append.mpr (Or.inl h))
      have hne : ¬(f r = k) := by
        intro e
        exact hk (List.mem_append.mpr (Or.inr (by simp [e])))
      rw [List.filter_append, habs k hk1,
        show List.filter (fun x => decide (f x = k)) [r] = [] by
          simp [List.filter_cons, hne], List.append_nil]

theorem groupBy_invariant {α β : Type} [DecidableEq α] (f : β → α) :
    ∀ (rest processed : List β) (acc : List (α × List β)),
    (acc.map (fun p => p.1)).Nodup →
    (∀ k g, (k, g) ∈ acc →
      g = processed.filter (fun x => decide (f x = k)) ∧ g ≠ []) →
    (∀ k, k ∉ acc.map (fun p => p.1) →
      processed.filter (fun x => decide (f x = k)) = []) →
    ∀ k g, (k, g) ∈ rest.foldl (fun m x => groupAppend m (f x) x) acc →
      g = (processed ++ rest).filter (fun x => decide (f x = k)) ∧ g ≠ []
  | [], processed, acc, hnodup, hgrp, habs, k, g, hkg => by
    rw [List.append_nil]
    exact hgrp k g hkg
  | r :: rest, processed, acc, hnodup, hgrp, habs, k, g, hkg => by
    rcases groupAppend_step f r processed acc hnodup hgrp habs with
      ⟨hnodup', hgrp', habs'⟩
    rw [List.foldl_cons] at hkg
    have := groupBy_invariant f rest (processed ++ [r])
      (groupAppend acc (f r) r) hnodup' hgrp' habs' k g hkg
    rwa [List.append_assoc, List.singleton_append] at this

theorem groupBy_spec {α β : Type} [DecidableEq α] (f : β → α)
    (recs : List β) (k : α) (g : List β)
    (h : (k, g) ∈ recs.foldl (fun m x => groupAppend m (f x) x) []) :
    g = recs.filter (fun x => decide (f x = k)) ∧ g ≠ [] := by
  have := groupBy_invariant f recs [] [] (by simp)
    (by intro k g h; cases h) (by intro k _; rfl) k g h
  rwa [List.nil_append] at this

/-! ### Provenance of collected crafting orders -/

theorem craftScan_mem (server : Str) : ∀ (rs : List TxRec)
    (seen : List (Str × Str × Str)) (r : CraftRec),
    r ∈ (craftScan server rs seen).2 →
    ∃ tx, tx ∈ rs ∧ tx.rtype = ("Crafting Order").data ∧
      r = { toTxRec := tx, crafter_server := pyTrim server,
            requester := tx.other_player, crafter := tx.player }
  | [], _, _, h => by cases h
  | tx :: rest, seen, r, h => by
    by_cases h1 : tx.rtype ≠ ("Crafting Order").data
    · rw [show craftScan server (tx :: rest) seen =
          craftScan server rest seen by simp [craftScan, h1]] at h
      rcases craftScan_mem server rest seen r h with ⟨tx', h2, h3, h4⟩
      exact ⟨tx', List.mem_cons_of_mem tx h2, h3, h4⟩
    · by_cases h2 : craftUid tx ∈ seen
      · rw [show craftScan server (tx :: rest) seen =
            craftScan server rest seen by simp [craftScan, h1, h2]] at h
        rcases craftScan_mem server rest seen r h with ⟨tx', h3, h4, h5⟩
        exact ⟨tx', List.mem_cons_of_mem tx h3, h4, h5⟩
      · rw [show (craftScan server (tx :: rest) seen).2 =
            { toTxRec := tx, crafter_server := pyTrim server,
              requester := tx.other_player, crafter := tx.player } ::
              (craftScan server rest (craftUid tx :: seen)).2 by
          simp [craftScan, h1, h2]] at h
        rcases List.mem_cons.mp h with h3 | h3
        · exact ⟨tx, List.mem_cons_self tx rest,
            Decidable.not_not.mp h1, h3⟩
        · rcases craftScan_mem server rest _ r h3 with ⟨tx', h4, h5, h6⟩
          exact ⟨tx', List.mem_cons_of_mem tx h4, h5, h6⟩

theorem craftFold_mem : ∀ (l : RawDump)
    (st : List (Str × Str × Str) × List CraftRec) (r : CraftRec),
    r ∈ (l.foldl
      (fun (st : List (Str × Str × Str) × List CraftRec) kv =>
        match kv.1, kv.2 with
        | .csvIncome server, .str v =>
          let out := craftScan server (parse_csv_records v) st.1
          (out.1, st.2 ++ out.2)
        | _, _ => st) st).2 →
    r ∈ st.2 ∨ ∃ server v, (RawKey.csvIncome server, RawVal.str v) ∈ l ∧
      ∃ tx, tx ∈ parse_csv_records v ∧ tx.rtype = ("Crafting Order").data ∧
        r = { toTxRec := tx, crafter_server := pyTrim server,
              requester := tx.other_player, crafter := tx.player }
  | [], _, _, h => Or.inl h
  | kv :: rest, st, r, h => by
    rw [List.foldl_cons] at h
    rcases craftFold_mem rest _ r h with h1 | h1
    · rcases kv with ⟨k, v⟩
      rcases k with nm | _ | server | server | _ <;> rcases v with i | v <;>
        first
        | exact Or.inl h1
        | (rcases List.mem_append.mp h1 with h2 | h2
           · exact Or.inl h2
           · rcases craftScan_mem server (parse_csv_records v) st.1 r h2 with
               ⟨tx, h3, h4, h5⟩
             exact Or.inr ⟨server, v, List.mem_cons_self _ _, tx, h3, h4, h5⟩)
    · rcases h1 with ⟨server, v, h2, tx, h3, h4, h5⟩
      exact Or.inr ⟨server, v, List.mem_cons_of_mem kv h2, tx, h3, h4, h5⟩

theorem extract_crafting_mem (raw : RawDump) (r : CraftRec)
    (h : r ∈ extract_crafting_orders raw) :
    ∃ server v, (RawKey.csvIncome server, RawVal.str v) ∈ raw ∧
      ∃ tx, tx ∈ parse_csv_records v ∧ tx.rtype = ("Crafting Order").data ∧
        r = { toTxRec := tx, crafter_server := pyTrim server,
              requester := tx.other_player, crafter := tx.player } := by
  unfold extract_crafting_orders at h
  rw [List.mem_insertionSort] at h
  rcases craftFold_mem raw ([], []) r h with h1 | h1
  · cases h1
  · exact h1

/-- C9: the crafting-order extractor collects records only from
income-channel (`csvIncome`) keys.  A Crafting Order identity that occurs
in no income-channel source string appears in neither the by-date nor the
by-requester crafting view. -/
theorem C9_crafting_views_income_only (raw : RawDump) (u : Str × Str × Str)
    (hno : ∀ server v, (RawKey.csvIncome server, RawVal.str v) ∈ raw →
      ∀ tx, tx ∈ parse_csv_records v →
        (tx.other_player, tx.player, tx.dt) ≠ u) :
    (∀ dc pl, (dc, pl) ∈ save_crafting_by_date (extract_crafting_orders raw) →
      ∀ o, o ∈ pl.orders → (o.requester, o.crafter, o.dt) ≠ u) ∧
    (∀ pl, pl ∈ save_crafting_by_requester (extract_crafting_orders raw) →
      ∀ o, o ∈ pl.orders → (pl.requester, o.crafter, o.dt) ≠ u) := by
  constructor
  · intro dc pl hpl o ho
    unfold save_crafting_by_date at hpl
    rcases List.mem_map.mp hpl with ⟨q, hq, hqe⟩
    rw [List.mem_insertionSort] at hq
    have hspec := groupBy_spec (fun r : CraftRec => r.date_compact)
      (extract_crafting_orders raw) q.1 q.2 hq
    injection hqe with he1 he2
    rw [← he2] at ho
    rcases List.mem_map.mp ho with ⟨rec, hrec, hrece⟩
    have hrecs : rec ∈ extract_crafting_orders raw := by
      have := hspec.1 ▸ hrec
      exact List.mem_of_mem_filter this
    rcases extract_crafting_mem raw rec hrecs with
      ⟨server, v, hkv, tx, htx, _, hdec⟩
    rw [← hrece, hdec]
    exact hno server v hkv tx htx
  · intro pl hpl o ho
    unfold save_crafting_by_requester at hpl
    rcases List.mem_map.mp hpl with ⟨q, hq, hqe⟩
    rw [List.mem_insertionSort] at hq
    have hspec := groupBy_spec (fun r : CraftRec => r.requester)
      (extract_crafting_orders raw) q.1 q.2 hq
    rw [← hqe] at ho ⊢
    rcases List.mem_map.mp ho with ⟨rec, hrec, hrece⟩
    have hrecflt : rec ∈ (extract_crafting_orders raw).filter
        (fun x => decide (x.requester = q.1)) := hspec.1 ▸ hrec
    have hrecs : rec ∈ extract_crafting_orders raw :=
      List.mem_of_mem_filter hrecflt
    have hreq : rec.requester = q.1 := by
      have := List.of_mem_filter hrecflt
      simpa using this
    rcases extract_crafting_mem raw rec hrecs with
      ⟨server, v, hkv, tx, htx, _, hdec⟩
    rw [← hrece]
    rw [show (ReqPayload.requester
        { requester := q.1,
          server := if (_parse_requester q.1).1 = ("_unknown").data
            then (q.2.headD dummyCraftRec).crafter_server
            else (_parse_requester q.1).1,
          character := (_parse_requester q.1).2,
          total_orders := q.2.length,
          total_gold := round4 ((q.2.map (fun r => amountGold r.toTxRec)).sum),
          orders := q.2.map (fun r =>
            { date := r.date, dt := r.dt, crafter := r.crafter,
              crafter_server := r.crafter_server,
              amount_gold := amountGold r.toTxRec }) }) = q.1 from rfl]
    rw [← hreq, hdec]
    exact hno server v hkv tx htx

/-- Witness for C9: a Crafting Order present only in an expense-channel
string is absent from both (non-empty) crafting views. -/
theorem C9_crafting_views_income_only_witness :
    save_crafting_by_date (extract_crafting_orders c9raw) ≠ [] ∧
    ((save_crafting_by_date (extract_crafting_orders c9raw)).headD
      ([], { date := [], total_orders := 0, total_gold := 0,
             orders := [] })).2.orders ≠ [] ∧
    save_crafting_by_requester (extract_crafting_orders c9raw) ≠ [] ∧
    ((save_crafting_by_requester (extract_crafting_orders c9raw)).headD
      { requester := [], server := [], character := [], total_orders := 0,
        total_gold := 0, orders := [] }).orders ≠ [] ∧
    ((((save_crafting_by_date (extract_crafting_orders c9raw)).headD
        ([], { date := [], total_orders := 0, total_gold := 0,
               orders := [] })).2.orders.headD
        { dt := [], requester := [], crafter := [], crafter_server := [],
          amount_gold := 0 }).requester,
     (((save_crafting_by_date (extract_crafting_orders c9raw)).headD
        ([], { date := [], total_orders := 0, total_gold := 0,
               orders := [] })).2.orders.headD
        { dt := [], requester := [], crafter := [], crafter_server := [],
          amount_gold := 0 }).crafter,
     (((save_crafting_by_date (extract_crafting_orders c9raw)).headD
        ([], { date := [], total_orders := 0, total_gold := 0,
               orders := [] })).2.orders.headD
        { dt := [], requester := [], crafter := [], crafter_server := [],
          amount_gold := 0 }).dt) ≠
      (("Alice").data, ("Bob").data, ("2024-01-01T00:00:05+00:00").data) ∧
    (((save_crafting_by_requester (extract_crafting_orders c9raw)).headD
        { requester := [], server := [], character := [], total_orders := 0,
          total_gold := 0, orders := [] }).requester,
     (((save_crafting_by_requester (extract_crafting_orders c9raw)).headD
        { requester := [], server := [], character := [], total_orders := 0,
          total_gold := 0, orders := [] }).orders.headD
        { date := [], dt := [], crafter := [], crafter_server := [],
          amount_gold := 0 }).crafter,
     (((save_crafting_by_requester (extract_crafting_orders c9raw)).headD
        { requester := [], server := [], character := [], total_orders := 0,
          total_gold := 0, orders := [] }).orders.headD
        { date := [], dt := [], crafter := [], crafter_server := [],
          amount_gold := 0 }).dt) ≠
      (("Alice").data, ("Bob").data, ("2024-01-01T00:00:05+00:00").data) := by
  have hno : ∀ server v,
      (RawKey.csvIncome server, RawVal.str v) ∈ c9raw →
      ∀ tx, tx ∈ parse_csv_records v →
        (tx.other_player, tx.player, tx.dt) ≠
          (("Alice").data, ("Bob").data,
           ("2024-01-01T00:00:05+00:00").data) := by
    intro server v hkv tx htx
    rcases List.mem_cons.mp hkv with h1 | h1
    · simp [c9raw] at h1
    · have h2 : (RawKey.csvIncome server, RawVal.str v) =
          (RawKey.csvIncome (("S2").data), RawVal.str c6csvS2) := by
        simpa [c9raw] using h1
      injection h2 with hk hv
      injection hv with hvv
      subst hvv
      have hmap : (parse_csv_records c6csvS2).map
          (fun tx => (tx.other_player, tx.player, tx.dt)) =
          [(("Alice").data, ("Carl").data,
            ("2024-01-02T00:00:05+00:00").data)] := by decide
      have hm : (tx.other_player, tx.player, tx.dt) ∈
          (parse_csv_records c6csvS2).map
            (fun tx => (tx.other_player, tx.player, tx.dt)) :=
        List.mem_map_of_mem _ htx
      rw [hmap] at hm
      have he : (tx.other_player, tx.player, tx.dt) =
          (("Alice").data, ("Carl").data,
           ("2024-01-02T00:00:05+00:00").data) := by simpa using hm
      rw [he]
      decide
  have hthm := C9_crafting_views_income_only c9raw
    (("Alice").data, ("Bob").data, ("2024-01-01T00:00:05+00:00").data) hno
  have hne1 : save_crafting_by_date (extract_crafting_orders c9raw) ≠ [] := by
    intro h
    have h0 : (save_crafting_by_date (extract_crafting_orders c9raw)).length
        = 0 := by rw [h]; rfl
    have h1 : (save_crafting_by_date (extract_crafting_orders c9raw)).length
        = 1 := by decide
    rw [h1] at h0
    cases h0
  have hne2 : save_crafting_by_requester (extract_crafting_orders c9raw)
      ≠ [] := by
    intro h
    have h0 : (save_crafting_by_requester
        (extract_crafting_orders c9raw)).length = 0 := by rw [h]; rfl
    have h1 : (save_crafting_by_requester
        (extract_crafting_orders c9raw)).length = 1 := by decide
    rw [h1] at h0
    cases h0
  have hdmem : (save_crafting_by_date (extract_crafting_orders c9raw)).headD
      ([], { date := [], total_orders := 0, total_gold := 0, orders := [] })
      ∈ save_crafting_by_date (extract_crafting_orders c9raw) := by
    rcases hl : save_crafting_by_date (extract_crafting_orders c9raw) with
      _ | ⟨x, xs⟩
    · exact absurd hl hne1
    · rw [List.headD_cons]
      exact List.mem_cons_self x xs
  have hrmem : (save_crafting_by_requester
      (extract_crafting_orders c9raw)).headD
      { requester := [], server := [], character := [], total_orders := 0,
        total_gold := 0, orders := [] }
      ∈ save_crafting_by_requester (extract_crafting_orders c9raw) := by
    rcases hl : save_crafting_by_requester (extract_crafting_orders c9raw)
      with _ | ⟨x, xs⟩
    · exact absurd hl hne2
    · rw [List.headD_cons]
      exact List.mem_cons_self x xs
  have hone1 : ((save_crafting_by_date
      (extract_crafting_orders c9raw)).headD
      ([], { date := [], total_orders := 0, total_gold := 0,
             orders := [] })).2.orders ≠ [] := by
    intro h
    have h0 : (((save_crafting_by_date
        (extract_crafting_orders c9raw)).headD
        ([], { date := [], total_orders := 0, total_gold := 0,
               orders := [] })).2.orders).length = 0 := by rw [h]; rfl
    have h1 : (((save_crafting_by_date
        (extract_crafting_orders c9raw)).headD
        ([], { date := [], total_orders := 0, total_gold := 0,
               orders := [] })).2.orders).length = 1 := by decide
    rw [h1] at h0
    cases h0
  have hone2 : ((save_crafting_by_requester
      (extract_crafting_orders c9raw)).headD
      { requester := [], server := [], character := [], total_orders := 0,
        total_gold := 0, orders := [] }).orders ≠ [] := by
    intro h
    have h0 : (((save_crafting_by_requester
        (extract_crafting_orders c9raw)).headD
        { requester := [], server := [], character := [], total_orders := 0,
          total_gold := 0, orders := [] }).orders).length = 0 := by
      rw [h]; rfl
    have h1 : (((save_crafting_by_requester
        (extract_crafting_orders c9raw)).headD
        { requester := [], server := [], character := [], total_orders := 0,
          total_gold := 0, orders := [] }).orders).length = 1 := by decide
    rw [h1] at h0
    cases h0
  have hodmem : (((save_crafting_by_date
      (extract_crafting_orders c9raw)).headD
      ([], { date := [], total_orders := 0, total_gold := 0,
             orders := [] })).2.orders.headD
      { dt := [], requester := [], crafter := [], crafter_server := [],
        amount_gold := 0 }) ∈
      ((save_crafting_by_date (extract_crafting_orders c9raw)).headD
      ([], { date := [], total_orders := 0, total_gold := 0,
             orders := [] })).2.orders := by
    rcases hl : ((save_crafting_by_date
        (extract_crafting_orders c9raw)).headD
        ([], { date := [], total_orders := 0, total_gold := 0,
               orders := [] })).2.orders with _ | ⟨x, xs⟩
    · exact absurd hl hone1
    · rw [List.headD_cons]
      exact List.mem_cons_self x xs
  have hormem : (((save_crafting_by_requester
      (extract_crafting_orders c9raw)).headD
      { requester := [], server := [], character := [], total_orders := 0,
        total_gold := 0, orders := [] }).orders.headD
      { date := [], dt := [], crafter := [], crafter_server := [],
        amount_gold := 0 }) ∈
      ((save_crafting_by_requester (extract_crafting_orders c9raw)).headD
      { requester := [], server := [], character := [], total_orders := 0,
        total_gold := 0, orders := [] }).orders := by
    rcases hl : ((save_crafting_by_requester
        (extract_crafting_orders c9raw)).headD
        { requester := [], server := [], character := [], total_orders := 0,
          total_gold := 0, orders := [] }).orders with _ | ⟨x, xs⟩
    · exact absurd hl hone2
    · rw [List.headD_cons]
      exact List.mem_cons_self x xs
  exact ⟨hne1, hone1, hne2, hone2,
    hthm.1 _ _ hdmem _ hodmem,
    hthm.2 _ hrmem _ hormem⟩

/-- C6 (counterexample): in `c6raw` the dashless requester `Alice` has
crafting records on servers S1 (earlier) and S2 (later).  The per-requester
view resolves the server once per requester, to the first record's crafter
server: the flags below show the requester carries no server suffix and
that the second order's crafter server differs from the resolved server,
so the claim as stated (resolved server = crafter server of each such
record) is false at this input. -/
theorem C6_fallback_not_per_record :
    ((save_crafting_by_requester (extract_crafting_orders c6raw)).map
      (fun p => (decide ((_parse_requester p.requester).1 = ("_unknown").data),
        p.orders.map (fun o => decide (o.crafter_server = p.server))))) =
      [(true, [true, false])] := by
  decide

/-- C6 (amended): for a requester identity with no server suffix, the
per-requester view resolves the server to the crafter server recorded on
the requester's first record in the (datetime-sorted) record list; in
particular, when the requester has a single record — or all of its
records share one crafter server — this is the crafter's server of that
same record. -/
theorem C6_requester_fallback_first_record (records : List CraftRec)
    (p : ReqPayload) (h : p ∈ save_crafting_by_requester records)
    (hnosrv : (_parse_requester p.requester).1 = ("_unknown").data) :
    records.filter (fun r => decide (r.requester = p.requester)) ≠ [] ∧
    p.server = ((records.filter
      (fun r => decide (r.requester = p.requester))).headD
        dummyCraftRec).crafter_server := by
  unfold save_crafting_by_requester at h
  rcases List.mem_map.mp h with ⟨q, hq, hqe⟩
  rw [List.mem_insertionSort] at hq
  have hspec := groupBy_spec (fun r : CraftRec => r.requester) records
    q.1 q.2 hq
  have hreq : p.requester = q.1 := by
    rw [← hqe]
  have hsrv : p.server =
      (if (_parse_requester q.1).1 = ("_unknown").data
       then (q.2.headD dummyCraftRec).crafter_server
       else (_parse_requester q.1).1) := by
    rw [← hqe]
  rw [hreq] at hnosrv ⊢
  rw [hsrv, if_pos hnosrv, ← hspec.1]
  exact ⟨hspec.1 ▸ hspec.2, rfl⟩

/-- Witness for the amended C6 at the two-server input. -/
theorem C6_requester_fallback_first_record_witness :
    save_crafting_by_requester (extract_crafting_orders c6raw) ≠ [] ∧
    (_parse_requester ((save_crafting_by_requester
        (extract_crafting_orders c6raw)).headD
      { requester := [], server := [], character := [], total_orders := 0,
        total_gold := 0, orders := [] }).requester).1 = ("_unknown").data ∧
    ((extract_crafting_orders c6raw).filter
      (fun r => decide (r.requester = ((save_crafting_by_requester
        (extract_crafting_orders c6raw)).headD
        { requester := [], server := [], character := [], total_orders := 0,
          total_gold := 0, orders := [] }).requester)) ≠ [] ∧
     ((save_crafting_by_requester (extract_crafting_orders c6raw)).headD
        { requester := [], server := [], character := [], total_orders := 0,
          total_gold := 0, orders := [] }).server =
       (((extract_crafting_orders c6raw).filter
        (fun r => decide (r.requester = ((save_crafting_by_requester
          (extract_crafting_orders c6raw)).headD
          { requester := [], server := [], character := [], total_orders := 0,
            total_gold := 0, orders := [] }).requester))).headD
         dummyCraftRec).crafter_server) := by
  have hne : save_crafting_by_requester (extract_crafting_orders c6raw)
      ≠ [] := by
    intro h
    have h0 : (save_crafting_by_requester
        (extract_crafting_orders c6raw)).length = 0 := by rw [h]; rfl
    have h1 : (save_crafting_by_requester
        (extract_crafting_orders c6raw)).length = 1 := by decide
    rw [h1] at h0
    cases h0
  have hmem : (save_crafting_by_requester
      (extract_crafting_orders c6raw)).headD
      { requester := [], server := [], character := [], total_orders := 0,
        total_gold := 0, orders := [] }
      ∈ save_crafting_by_requester (extract_crafting_orders c6raw) := by
    rcases hl : save_crafting_by_requester (extract_crafting_orders c6raw)
      with _ | ⟨x, xs⟩
    · exact absurd hl hne
    · rw [List.headD_cons]
      exact List.mem_cons_self x xs
  have hnosrv : (_parse_requester ((save_crafting_by_requester
      (extract_crafting_orders c6raw)).headD
      { requester := [], server := [], character := [], total_orders := 0,
        total_gold := 0, orders := [] }).requester).1 =
      ("_unknown").data := by decide
  exact ⟨hne, hnosrv,
    C6_requester_fallback_first_record (extract_crafting_orders c6raw) _
      hmem hnosrv⟩
